import Mathlib

/-! # ptsim: a paged virtual-memory simulator

A shallow embedding of `src/ptsim.c`.  The global byte array `mem`, the global
counter `allocated_pages` and the lines written to standard output are carried
in an explicit `State`.  C `int` values are `Int`: the arithmetic of the
program (`vaddr / 256`, `vaddr % 256`, `entry * 256 + offset`,
`(page << 8) | offset` with `page` a byte or a page number) stays within 32
bits for every `int` argument, and `PTP_OFFSET + proc_num` does for the
process ids considered here.  A byte of `mem` is a `Nat`; what is assigned to
`mem` is reduced modulo 256, as the conversion to `unsigned char` does.  An
access to `mem` outside `[0, MEM_SIZE)` has no defined result in C: the
embedding returns `none` there, so that a result `some _` is a run without such
an access.  The `for` loops are recursive functions on the number of
iterations left.
-/

namespace Ptsim

/-! ## Constants (`#define`s of the source) -/

def MEM_SIZE : Nat := 16384
def PAGE_SIZE : Nat := 256
def PAGE_COUNT : Nat := 64
def PAGE_SHIFT : Nat := 8
def PTP_OFFSET : Nat := 64

/-! ## State -/

/-- One line written by `printf`. `load_value` prints with the same format
string as `store_value` (`"Store proc %d: %d => %d, value=%d"`), so both
produce a `store_line`. -/
inductive Line where
  | oom_page_table (proc_num : Int)
  | oom_data_page (proc_num : Int)
  | store_line (proc_num vaddr physical_page value : Int)
  deriving DecidableEq

/-- The simulated RAM: the contents of `unsigned char mem[MEM_SIZE]`. -/
abbrev Mem := Nat → Nat

/-- The globals of the program and the output produced so far. -/
structure State where
  mem : Mem
  allocated_pages : Nat
  out : List Line

/-- Conversion of an `int` to `unsigned char`. -/
def toByte (v : Int) : Nat := (v % 256).toNat

/-- The array `m` with index `a` set to `v`. -/
def write (m : Mem) (a : Nat) (v : Nat) : Mem := fun j => if j = a then v else m j

/-- The read `mem[a]`: defined for an index in `[0, MEM_SIZE)`. -/
def load (s : State) : Int → Option Nat
  | Int.ofNat a => if a < MEM_SIZE then some (s.mem a) else none
  | Int.negSucc _ => none

/-- The assignment `mem[a] = v`: defined for an index in `[0, MEM_SIZE)`. -/
def store (s : State) : Int → Int → Option State
  | Int.ofNat a, v =>
    if a < MEM_SIZE then some { s with mem := write s.mem a (toByte v) } else none
  | Int.negSucc _, _ => none

/-! ## The functions of `ptsim.c` -/

/-- `get_address`: `(page << PAGE_SHIFT) | offset`. -/
def get_address (page offset : Int) : Int :=
  Int.lor (page <<< (PAGE_SHIFT : Int)) offset

/-- `initialize_mem`: all of memory zero, then the zero page marked allocated.
The counter and the output start as the C globals do, at zero and empty. -/
def initialize_mem : State :=
  { mem := write (fun _ => 0) (get_address 0 0).toNat 1
    allocated_pages := 0
    out := [] }

/-- `get_page_table`: the byte `mem[get_address(0, PTP_OFFSET + proc_num)]`. -/
def get_page_table (proc_num : Int) (s : State) : Option Nat :=
  load s (get_address 0 ((PTP_OFFSET : Int) + proc_num))

/-- The loop of `allocate_a_page`, with `k` iterations left at index `i`. -/
def allocate_scan (s : State) : Nat → Nat → Int × State
  | 0, _ => (-1, s)
  | k + 1, i =>
    if s.mem i = 0 then
      ((i : Int), { s with mem := write s.mem i 1, allocated_pages := s.allocated_pages + 1 })
    else allocate_scan s k (i + 1)

/-- `allocate_a_page`: first fit over the free map `mem[0..PAGE_COUNT)`. -/
def allocate_a_page (s : State) : Int × State :=
  allocate_scan s PAGE_COUNT 0

/-- The data-page loop of `new_process`, with `k` iterations left at index `i`. -/
def new_process_loop (proc_num page_table : Int) : Nat → Nat → State → Option State
  | 0, _, s => some s
  | k + 1, i, s =>
    let r := allocate_a_page s
    if r.1 = -1 then
      some { r.2 with out := r.2.out ++ [Line.oom_data_page proc_num] }
    else
      (store r.2 (get_address page_table (i : Int)) r.1).bind
        (new_process_loop proc_num page_table k (i + 1))

/-- `new_process`: a page table and `page_count` data pages. -/
def new_process (proc_num page_count : Int) (s : State) : Option State :=
  let r := allocate_a_page s
  if r.1 = -1 then
    some { r.2 with out := r.2.out ++ [Line.oom_page_table proc_num] }
  else
    (store r.2 ((PTP_OFFSET : Int) + proc_num) r.1).bind
      (new_process_loop proc_num r.1 page_count.toNat 0)

/-- The loop of `kill_process`, with `k` iterations left at index `i`. -/
def kill_process_loop (page_table : Int) : Nat → Nat → State → Option State
  | 0, _, s => some s
  | k + 1, i, s =>
    (load s (get_address page_table (i : Int))).bind fun page =>
      ((if (page : Int) ≠ 0 then store s (page : Int) 0 else some s)).bind
        (kill_process_loop page_table k (i + 1))

/-- `kill_process`: free the pages listed in the page table, then the table. -/
def kill_process (proc_num : Int) (s : State) : Option State :=
  (get_page_table proc_num s).bind fun page_table =>
    (kill_process_loop (page_table : Int) PAGE_COUNT 0 s).bind fun s1 =>
      (store s1 (page_table : Int) 0).bind fun s2 =>
        store s2 ((PTP_OFFSET : Int) + proc_num) 0

/-- `vert_to_phys`: the physical address of a virtual address. `/` and `%` of C
truncate towards zero. -/
def vert_to_phys (proc_num vaddr : Int) (s : State) : Option Int :=
  (get_page_table proc_num s).bind fun page_table =>
    let page_num := Int.tdiv vaddr (PAGE_SIZE : Int)
    let offset := Int.tmod vaddr (PAGE_SIZE : Int)
    (load s (get_address (page_table : Int) page_num)).bind fun physical_addr =>
      some ((physical_addr : Int) * (PAGE_SIZE : Int) + offset)

/-- `store_value`. -/
def store_value (proc_num vaddr value : Int) (s : State) : Option State :=
  (vert_to_phys proc_num vaddr s).bind fun physical_page =>
    (store s physical_page value).bind fun s1 =>
      some { s1 with out := s1.out ++ [Line.store_line proc_num vaddr physical_page value] }

/-- `load_value`. -/
def load_value (proc_num vaddr : Int) (s : State) : Option State :=
  (vert_to_phys proc_num vaddr s).bind fun physical_page =>
    (load s physical_page).bind fun value =>
      some { s with out := s.out ++ [Line.store_line proc_num vaddr physical_page (value : Int)] }

/-! ## Specification vocabulary -/

/-- The free pages of a state, in increasing order: the indices `i` of the
free map `mem[0..PAGE_COUNT)` with `mem[i] == 0`. -/
def free_pages (s : State) : List Nat :=
  (List.range PAGE_COUNT).filter fun i => s.mem i = 0

/-- The state after a list of `new_process` calls, each given as
`(proc_num, page_count)`. -/
def run_new : List (Nat × Int) → State → Option State
  | [], s => some s
  | c :: cs, s => (new_process (c.1 : Int) c.2 s).bind (run_new cs)

/-- The commands of `main` that change or read the simulated memory, with a
process id that is a natural number. -/
inductive Cmd where
  | np (proc_num : Nat) (page_count : Int)
  | kp (proc_num : Nat)
  | sb (proc_num : Nat) (vaddr value : Int)
  | lb (proc_num : Nat) (vaddr : Int)
  deriving DecidableEq

/-- The process id of a command. -/
def Cmd.pid : Cmd → Nat
  | Cmd.np p _ => p
  | Cmd.kp p => p
  | Cmd.sb p _ _ => p
  | Cmd.lb p _ => p

/-- The call `main` makes for a command. -/
def step : Cmd → State → Option State
  | Cmd.np p n, s => new_process (p : Int) n s
  | Cmd.kp p, s => kill_process (p : Int) s
  | Cmd.sb p v x, s => store_value (p : Int) v x s
  | Cmd.lb p v, s => load_value (p : Int) v s

/-- The state after a list of commands. -/
def run : List Cmd → State → Option State
  | [], s => some s
  | c :: cs, s => (step c s).bind (run cs)

/-- The byte that `vert_to_phys` reads as the page-table entry of `vaddr`. -/
def page_entry (proc_num vaddr : Int) (s : State) : Option Nat :=
  (get_page_table proc_num s).bind fun page_table =>
    load s (get_address (page_table : Int) (Int.tdiv vaddr (PAGE_SIZE : Int)))

/-- A command that addresses an existing mapping: `kill_process` of a process
whose PTPT entry is nonzero, `store_value` at an address whose page-table entry
is nonzero; `new_process` and `load_value` always. -/
def addresses_mapping : Cmd → State → Bool
  | Cmd.np _ _, _ => true
  | Cmd.kp p, s => decide (s.mem (64 + p) ≠ 0)
  | Cmd.sb p v _, s => decide (page_entry (p : Int) v s ≠ some 0)
  | Cmd.lb _ _, _ => true

/-- Every command of the list addresses an existing mapping in the state it
runs in. -/
def all_address_mappings : List Cmd → State → Bool
  | [], _ => true
  | c :: cs, s =>
    addresses_mapping c s &&
      match step c s with
      | some s' => all_address_mappings cs s'
      | none => true

/-- What holds of memory after `new_process` calls on freshly initialised
memory: page 0 is allocated, every byte is a page number, and outside page 0
the bytes at offsets 63 and above of every page are zero. -/
def fresh_inv (s : State) : Prop :=
  s.mem 0 ≠ 0 ∧ (∀ a, s.mem a < 64) ∧ (∀ a, 256 ≤ a → 63 ≤ a % 256 → s.mem a = 0)

/-- The translation with the decomposition in the words of the specification,
`vpage = vaddr >> PAGE_SHIFT` and `offset = vaddr & (PAGE_SIZE-1)`, to be
compared with `vert_to_phys`, which divides. -/
def vert_to_phys_shift (proc_num vaddr : Int) (s : State) : Option Int :=
  (get_page_table proc_num s).bind fun page_table =>
    let page_num := vaddr >>> PAGE_SHIFT
    let offset := Int.land vaddr ((PAGE_SIZE : Int) - 1)
    (load s (get_address (page_table : Int) page_num)).bind fun physical_addr =>
      some ((physical_addr : Int) * (PAGE_SIZE : Int) + offset)

/-- The number of pages marked used: the nonzero free-map bytes `mem[0..63]`. -/
def used_count (s : State) : Nat :=
  ((List.range 64).filter fun i => s.mem i ≠ 0).length

/-- The number of nonzero PTPT entries `mem[64..127]`. -/
def ptpt_count (s : State) : Nat :=
  ((List.range 64).filter fun q => s.mem (64 + q) ≠ 0).length

/-- The number of nonzero entries among the 256 bytes of page `t`. -/
def entry_count (s : State) (t : Nat) : Nat :=
  ((List.range 256).filter fun i => s.mem (t * 256 + i) ≠ 0).length

/-- The total number of nonzero entries in the page tables that the nonzero
PTPT entries point to. -/
def live_entry_count (s : State) : Nat :=
  ((List.range 64).map fun q =>
    if s.mem (64 + q) ≠ 0 then entry_count s (s.mem (64 + q)) else 0).sum

/-- Every used page has exactly one owner: page 0 is reserved, and each other
used page is either the page table of one process with a nonzero PTPT entry or
one nonzero entry of one such page table. -/
structure owned (s : State) : Prop where
  fresh : fresh_inv s
  owner : ∀ x, x < 64 → x ≠ 0 → s.mem x ≠ 0 →
    ∃ q, q < 64 ∧ s.mem (64 + q) ≠ 0 ∧
      (x = s.mem (64 + q) ∨ ∃ i, i < 256 ∧ s.mem (s.mem (64 + q) * 256 + i) = x)
  table_used : ∀ q, q < 64 → s.mem (64 + q) ≠ 0 → s.mem (s.mem (64 + q)) ≠ 0
  entry_used : ∀ q i, q < 64 → i < 256 → s.mem (64 + q) ≠ 0 →
    s.mem (s.mem (64 + q) * 256 + i) ≠ 0 → s.mem (s.mem (s.mem (64 + q) * 256 + i)) ≠ 0
  table_inj : ∀ q r, q < 64 → r < 64 → s.mem (64 + q) ≠ 0 → s.mem (64 + r) ≠ 0 →
    s.mem (64 + q) = s.mem (64 + r) → q = r
  entry_inj : ∀ q r i j, q < 64 → r < 64 → i < 256 → j < 256 →
    s.mem (64 + q) ≠ 0 → s.mem (64 + r) ≠ 0 → s.mem (s.mem (64 + q) * 256 + i) ≠ 0 →
    s.mem (s.mem (64 + q) * 256 + i) = s.mem (s.mem (64 + r) * 256 + j) → q = r ∧ i = j
  table_entry : ∀ q r i, q < 64 → r < 64 → i < 256 →
    s.mem (64 + q) ≠ 0 → s.mem (64 + r) ≠ 0 →
    s.mem (s.mem (64 + r) * 256 + i) ≠ s.mem (64 + q)

/-- Every free page other than page 0 holds only zero bytes. -/
def free_zero (s : State) : Prop :=
  ∀ f i, 1 ≤ f → f < 64 → i < 256 → s.mem f = 0 → s.mem (f * 256 + i) = 0

/-- No byte outside page 0 holds the number of a page that is registered in
the PTPT as the page table of a process. -/
def no_table_entry (s : State) : Prop :=
  ∀ q a, q < 64 → 256 ≤ a → s.mem (64 + q) ≠ 0 → s.mem a ≠ s.mem (64 + q)

/-- The nonzero PTPT entries and the nonzero bytes outside page 0 are numbers
of used pages. -/
def refs_used (s : State) : Prop :=
  (∀ q, q < 64 → s.mem (64 + q) ≠ 0 → s.mem (s.mem (64 + q)) ≠ 0) ∧
  (∀ a, 256 ≤ a → s.mem a ≠ 0 → s.mem (s.mem a) ≠ 0)

/-! ## Memory accesses -/

theorem get_address_nat (page offset : Nat) (h : offset < 256) :
    get_address (page : Int) (offset : Int) = ((page * 256 + offset : Nat) : Int) := by
  have h1 : ((page : Int) <<< ((8 : Nat) : Int)) = ((page <<< 8 : Nat) : Int) :=
    Int.shiftLeft_coe_nat page 8
  have h2 : page <<< 8 ||| offset = page * 256 + offset := by
    have h3 := Nat.mul_add_lt_is_or (show offset < 2 ^ 8 from h) page
    rw [Nat.shiftLeft_eq, Nat.mul_comm page (2 ^ 8), ← h3]
  show Int.lor ((page : Int) <<< ((8 : Nat) : Int)) (offset : Int) = _
  rw [h1]
  show (((page <<< 8 ||| offset : Nat)) : Int) = _
  rw [h2]

theorem load_nat (s : State) (a : Nat) (h : a < 16384) :
    load s (a : Int) = some (s.mem a) :=
  if_pos h

theorem store_nat (s : State) (a : Nat) (v : Int) (h : a < 16384) :
    store s (a : Int) v = some { s with mem := write s.mem a (toByte v) } :=
  if_pos h

theorem toByte_nat (v : Nat) (h : v < 256) : toByte (v : Int) = v := by
  unfold toByte
  omega

theorem write_same (m : Mem) (a v : Nat) : write m a v a = v := by
  simp [write]

theorem write_other (m : Mem) (a v b : Nat) (h : b ≠ a) : write m a v b = m b := by
  simp [write, h]

theorem get_page_table_nat (s : State) (p : Nat) (hp : p < 64) :
    get_page_table (p : Int) s = some (s.mem (64 + p)) := by
  unfold get_page_table PTP_OFFSET
  have h := get_address_nat 0 (64 + p) (by omega)
  rw [show (((0 : Nat) : Int)) = 0 from rfl, Nat.cast_add] at h
  rw [h, load_nat s _ (by omega)]
  simp

theorem tdiv_nat (v : Nat) :
    Int.tdiv (v : Int) ((PAGE_SIZE : Nat) : Int) = ((v / 256 : Nat) : Int) :=
  (Int.ofNat_tdiv v 256).symm

theorem tmod_nat (v : Nat) :
    Int.tmod (v : Int) ((PAGE_SIZE : Nat) : Int) = ((v % 256 : Nat) : Int) :=
  (Int.ofNat_tmod v 256).symm

theorem phys_nat (a b : Nat) :
    (a : Int) * ((PAGE_SIZE : Nat) : Int) + (b : Int) = ((a * 256 + b : Nat) : Int) := by
  unfold PAGE_SIZE
  push_cast
  rfl

/-- The translation, for a process id and a virtual address in range whose
page-table page `t` is a page of memory. -/
theorem vert_to_phys_nat (s : State) (p v : Nat) (hp : p < 64) (hv : v < 16384)
    (ht : s.mem (64 + p) < 64) :
    vert_to_phys (p : Int) (v : Int) s =
      some ((s.mem (s.mem (64 + p) * 256 + v / 256) * 256 + v % 256 : Nat) : Int) := by
  unfold vert_to_phys
  rw [get_page_table_nat s p hp]
  simp only [Option.some_bind]
  rw [tdiv_nat, tmod_nat, get_address_nat _ _ (by omega), load_nat s _ (by omega)]
  simp only [Option.some_bind]
  rw [phys_nat]

/-- The effect of `store_value` when the page-table page `t` and the entry `e`
read from it are both pages of memory. -/
theorem store_value_nat (s : State) (p v : Nat) (x : Int) (hp : p < 64) (hv : v < 16384)
    (ht : s.mem (64 + p) < 64)
    (he : s.mem (s.mem (64 + p) * 256 + v / 256) < 64) :
    store_value (p : Int) (v : Int) x s =
      some { mem := write s.mem (s.mem (s.mem (64 + p) * 256 + v / 256) * 256 + v % 256)
               (toByte x)
             allocated_pages := s.allocated_pages
             out := s.out ++ [Line.store_line (p : Int) (v : Int)
               ((s.mem (s.mem (64 + p) * 256 + v / 256) * 256 + v % 256 : Nat) : Int) x] } := by
  unfold store_value
  rw [vert_to_phys_nat s p v hp hv ht]
  simp only [Option.some_bind]
  rw [store_nat s _ x (by omega)]
  rfl

/-- The effect of `load_value` under the same conditions. -/
theorem load_value_nat (s : State) (p v : Nat) (hp : p < 64) (hv : v < 16384)
    (ht : s.mem (64 + p) < 64)
    (he : s.mem (s.mem (64 + p) * 256 + v / 256) < 64) :
    load_value (p : Int) (v : Int) s =
      some { s with
             out := s.out ++ [Line.store_line (p : Int) (v : Int)
               ((s.mem (s.mem (64 + p) * 256 + v / 256) * 256 + v % 256 : Nat) : Int)
               ((s.mem (s.mem (s.mem (64 + p) * 256 + v / 256) * 256 + v % 256) : Nat) : Int)] } := by
  unfold load_value
  rw [vert_to_phys_nat s p v hp hv ht]
  simp only [Option.some_bind]
  rw [load_nat s _ (by omega)]
  rfl

/-! ## The free list -/

theorem mem_free_pages (s : State) (f : Nat) :
    f ∈ free_pages s ↔ f < 64 ∧ s.mem f = 0 := by
  simp [free_pages, PAGE_COUNT]

theorem free_pages_nodup (s : State) : (free_pages s).Nodup :=
  (List.nodup_range PAGE_COUNT).filter _

theorem free_pages_congr (s t : State) (h : ∀ i, i < 64 → t.mem i = s.mem i) :
    free_pages t = free_pages s := by
  unfold free_pages
  apply List.filter_congr
  intro i hi
  rw [h i (by simpa [PAGE_COUNT] using hi)]

theorem free_pages_pos (s : State) (h0 : s.mem 0 ≠ 0) (f : Nat) (hf : f ∈ free_pages s) :
    1 ≤ f := by
  rcases Nat.eq_zero_or_pos f with h | h
  · subst h
    exact absurd ((mem_free_pages s 0).1 hf).2 h0
  · exact h

theorem free_pages_length_le (s : State) (h0 : s.mem 0 ≠ 0) :
    (free_pages s).length ≤ 63 := by
  have h1 : free_pages s = (List.range' 1 63).filter fun i => s.mem i = 0 := by
    unfold free_pages PAGE_COUNT
    rw [List.range_eq_range', show (64 : Nat) = 63 + 1 from rfl, List.range'_succ,
      List.filter_cons_of_neg (by simpa using h0)]
  rw [h1]
  exact (List.length_filter_le _ _).trans (by simp)

/-- After the head of the free list is marked used, the free list is its tail. -/
theorem free_pages_alloc (s t : State) (f : Nat) (rest : List Nat)
    (h : free_pages s = f :: rest) (ht : t.mem = write s.mem f 1) :
    free_pages t = rest := by
  have hnd := free_pages_nodup s
  rw [h] at hnd
  have hf : f ∉ rest := (List.nodup_cons.1 hnd).1
  have h1 : free_pages t = (free_pages s).filter fun i => decide (i ≠ f) := by
    unfold free_pages
    rw [List.filter_filter]
    apply List.filter_congr
    intro i _
    rw [ht]
    by_cases hi : i = f
    · subst hi
      simp [write]
    · simp [write, hi]
  rw [h1, h, List.filter_cons_of_neg (by simp)]
  exact List.filter_eq_self.2 fun a ha => by
    have : a ≠ f := fun e => hf (e ▸ ha)
    simpa using this

/-- The free list is strictly increasing. -/
theorem free_pages_sorted (s : State) : (free_pages s).Pairwise (· < ·) :=
  (List.pairwise_lt_range PAGE_COUNT).filter _

theorem getD_some (l : List Nat) : ∀ (i : Nat), i < l.length → l[i]? = some (l.getD i 0) := by
  induction l with
  | nil => intro i h; simp at h
  | cons x xs ih =>
    intro i h
    cases i with
    | zero => simp
    | succ i =>
      rw [List.getElem?_cons_succ, List.getD_cons_succ]
      exact ih i (by simpa using h)

theorem getD_mem (l : List Nat) (i : Nat) (h : i < l.length) : l.getD i 0 ∈ l :=
  List.mem_iff_getElem?.2 ⟨i, getD_some l i h⟩

theorem mem_take_getD (l : List Nat) : ∀ (n a : Nat), a ∈ l.take n →
    ∃ j, j < n ∧ j < l.length ∧ l.getD j 0 = a := by
  induction l with
  | nil => intro n a h; simp at h
  | cons x xs ih =>
    intro n a h
    cases n with
    | zero => simp at h
    | succ n =>
      rw [List.take_succ_cons, List.mem_cons] at h
      rcases h with h | h
      · exact ⟨0, by omega, by simp, by rw [h]; rfl⟩
      · obtain ⟨j, h1, h2, h3⟩ := ih n a h
        exact ⟨j + 1, by omega, by simpa using h2, by rw [List.getD_cons_succ]; exact h3⟩

/-! ## The allocator -/

theorem allocate_scan_nil (s : State) : ∀ k i,
    ((List.range' i k).filter fun j => s.mem j = 0) = [] →
    allocate_scan s k i = (-1, s)
  | 0, _, _ => rfl
  | k + 1, i, h => by
    rw [List.range'_succ] at h
    by_cases hi : s.mem i = 0
    · rw [List.filter_cons_of_pos (by simpa using hi)] at h
      exact absurd h (List.cons_ne_nil _ _)
    · rw [List.filter_cons_of_neg (by simpa using hi)] at h
      unfold allocate_scan
      rw [if_neg hi]
      exact allocate_scan_nil s k (i + 1) h

theorem allocate_scan_cons (s : State) : ∀ k i f rest,
    ((List.range' i k).filter fun j => s.mem j = 0) = f :: rest →
    allocate_scan s k i =
      ((f : Int), { s with mem := write s.mem f 1, allocated_pages := s.allocated_pages + 1 })
  | 0, _, _, _, h => by simp at h
  | k + 1, i, f, rest, h => by
    rw [List.range'_succ] at h
    by_cases hi : s.mem i = 0
    · rw [List.filter_cons_of_pos (by simpa using hi)] at h
      obtain ⟨h1, _⟩ := List.cons.inj h
      subst h1
      unfold allocate_scan
      rw [if_pos hi]
    · rw [List.filter_cons_of_neg (by simpa using hi)] at h
      unfold allocate_scan
      rw [if_neg hi]
      exact allocate_scan_cons s k (i + 1) f rest h

theorem allocate_a_page_nil (s : State) (h : free_pages s = []) :
    allocate_a_page s = (-1, s) := by
  unfold free_pages at h
  rw [List.range_eq_range'] at h
  exact allocate_scan_nil s PAGE_COUNT 0 h

theorem allocate_a_page_cons (s : State) (f : Nat) (rest : List Nat)
    (h : free_pages s = f :: rest) :
    allocate_a_page s =
      ((f : Int), { s with mem := write s.mem f 1, allocated_pages := s.allocated_pages + 1 }) := by
  unfold free_pages at h
  rw [List.range_eq_range'] at h
  exact allocate_scan_cons s PAGE_COUNT 0 f rest h

/-- The head of the free list is the lowest free page. -/
theorem free_pages_head_least (s : State) (f : Nat) (rest : List Nat)
    (h : free_pages s = f :: rest) :
    f < 64 ∧ s.mem f = 0 ∧ ∀ j, j < f → s.mem j ≠ 0 := by
  have hf : f ∈ free_pages s := by rw [h]; exact List.mem_cons_self _ _
  refine ⟨((mem_free_pages s f).1 hf).1, ((mem_free_pages s f).1 hf).2, ?_⟩
  intro j hj hz
  have hj64 : j < 64 := lt_trans hj ((mem_free_pages s f).1 hf).1
  have hjm : j ∈ free_pages s := (mem_free_pages s j).2 ⟨hj64, hz⟩
  have hs : (free_pages s).Pairwise (· < ·) :=
    (List.pairwise_lt_range PAGE_COUNT).filter _
  rw [h] at hs hjm
  rcases List.mem_cons.1 hjm with e | e
  · omega
  · have := (List.pairwise_cons.1 hs).1 j e
    omega

/-! ## `new_process` -/

/-- The data-page loop, started at index `i` with `k` iterations to go in a
state whose page 0 is allocated: it takes the first `k` free pages in order,
links them at entries `i, i+1, ...` of the page table `pt`, and reports
out-of-memory when fewer than `k` pages are free. -/
theorem new_process_loop_spec (proc : Int) (pt : Nat) (hpt1 : 1 ≤ pt) (hpt : pt < 64) :
    ∀ (k i : Nat) (s : State), s.mem 0 ≠ 0 → i + (free_pages s).length ≤ 256 →
    ∃ s', new_process_loop proc (pt : Int) k i s = some s' ∧
      free_pages s' = (free_pages s).drop k ∧
      s'.out = s.out ++
        (if (free_pages s).length < k then [Line.oom_data_page proc] else []) ∧
      (∀ j f, j < k → (free_pages s)[j]? = some f →
        s'.mem (pt * 256 + (i + j)) = f ∧ s'.mem f = 1) ∧
      (∀ a, a ∉ (free_pages s).take k →
        (∀ j, j < k → j < (free_pages s).length → a ≠ pt * 256 + (i + j)) →
        s'.mem a = s.mem a) := by
  intro k
  induction k with
  | zero =>
    intro i s _ _
    refine ⟨s, rfl, rfl, ?_, ?_, ?_⟩
    · rw [if_neg (Nat.not_lt_zero _), List.append_nil]
    · intro j f hj
      exact absurd hj (Nat.not_lt_zero _)
    · intro a _ _
      rfl
  | succ k ih =>
    intro i s h0 hlen
    cases hfs : free_pages s with
    | nil =>
      refine ⟨{ s with out := s.out ++ [Line.oom_data_page proc] }, ?_, ?_, ?_, ?_, ?_⟩
      · unfold new_process_loop
        rw [allocate_a_page_nil s hfs]
        rfl
      · rw [List.drop_nil, ← hfs]
        exact free_pages_congr _ _ fun _ _ => rfl
      · rw [if_pos (by simp)]
      · intro j f _ hf
        simp at hf
      · intro a _ _
        rfl
    | cons f rest =>
      have hfm : f ∈ free_pages s := by rw [hfs]; exact List.mem_cons_self _ _
      have hf64 : f < 64 := ((mem_free_pages s f).1 hfm).1
      have hf1 : 1 ≤ f := free_pages_pos s h0 f hfm
      have hfr : f ∉ rest := by
        have hnd := free_pages_nodup s
        rw [hfs] at hnd
        exact (List.nodup_cons.1 hnd).1
      have hrest : ∀ a, a ∈ rest → a < 64 := fun a ha =>
        ((mem_free_pages s a).1 (by rw [hfs]; exact List.mem_cons_of_mem _ ha)).1
      rw [hfs, List.length_cons] at hlen
      have hi : i < 256 := by omega
      let s1 : State :=
        { s with mem := write s.mem f 1, allocated_pages := s.allocated_pages + 1 }
      let s2 : State := { s1 with mem := write s1.mem (pt * 256 + i) f }
      have hs1 : free_pages s1 = rest := free_pages_alloc s s1 f rest hfs rfl
      have hs2 : free_pages s2 = rest := by
        rw [← hs1]
        exact free_pages_congr _ _ fun a ha => write_other _ _ _ _ (by omega)
      have h02 : s2.mem 0 ≠ 0 := by
        show write (write s.mem f 1) (pt * 256 + i) f 0 ≠ 0
        rw [write_other _ _ _ _ (by omega), write_other _ _ _ _ (by omega)]
        exact h0
      obtain ⟨s', e1, e2, e3, e4, e5⟩ := ih (i + 1) s2 h02 (by rw [hs2]; omega)
      rw [hs2] at e2 e3 e4 e5
      have hstep : new_process_loop proc (pt : Int) (k + 1) i s = some s' := by
        unfold new_process_loop
        rw [allocate_a_page_cons s f rest hfs]
        simp only
        rw [if_neg (by omega), get_address_nat pt i hi, store_nat _ _ _ (by omega),
          toByte_nat f (by omega), Option.some_bind]
        exact e1
      have hpres : ∀ a, a < 256 → a ∉ rest → s'.mem a = s2.mem a := by
        intro a ha har
        exact e5 a (fun hm => har (List.mem_of_mem_take hm)) fun j _ _ => by omega
      refine ⟨s', hstep, ?_, ?_, ?_, ?_⟩
      · rw [e2, List.drop_succ_cons]
      · rw [e3, List.length_cons]
        by_cases hk : rest.length < k
        · rw [if_pos hk, if_pos (by omega)]
        · rw [if_neg hk, if_neg (by omega)]
      · intro j g hj hg
        cases j with
        | zero =>
          rw [List.getElem?_cons_zero, Option.some.injEq] at hg
          subst hg
          constructor
          · rw [e5 (pt * 256 + (i + 0))
              (fun hm => by have := hrest _ (List.mem_of_mem_take hm); omega)
              (fun j _ _ => by omega)]
            exact write_same _ _ _
          · rw [hpres f (by omega) hfr]
            show write (write s.mem f 1) (pt * 256 + i) f f = 1
            rw [write_other _ _ _ _ (by omega), write_same]
        | succ j =>
          rw [List.getElem?_cons_succ] at hg
          have := e4 j g (by omega) hg
          rw [show pt * 256 + (i + (j + 1)) = pt * 256 + (i + 1 + j) by omega]
          exact this
      · intro a ha hne
        rw [List.take_succ_cons, List.mem_cons, not_or] at ha
        rw [e5 a ha.2 fun j hj hj' => by
          have := hne (j + 1) (by omega) (by rw [List.length_cons]; omega)
          omega]
        show write (write s.mem f 1) (pt * 256 + i) f a = s.mem a
        have h1 := hne 0 (by omega) (by rw [List.length_cons]; omega)
        rw [write_other _ _ _ _ (by omega), write_other _ _ _ _ ha.1]

theorem ptp_nat (p : Nat) : ((PTP_OFFSET : Nat) : Int) + (p : Int) = ((64 + p : Nat) : Int) := by
  unfold PTP_OFFSET
  push_cast
  rfl

/-- With no free page, `new_process` only reports out-of-memory for the page table. -/
theorem new_process_nil (p n : Int) (s : State) (hfs : free_pages s = []) :
    new_process p n s = some { s with out := s.out ++ [Line.oom_page_table p] } := by
  unfold new_process
  rw [allocate_a_page_nil s hfs]
  rfl

/-- With free pages `f0 :: rest` and page 0 allocated, `new_process` takes `f0`
as page table, registers it for `p`, and links the first `page_count` pages of
`rest`, reporting out-of-memory when `rest` is too short. -/
theorem new_process_cons (s : State) (p : Nat) (n : Int) (hp : p < 64) (h0 : s.mem 0 ≠ 0)
    (f0 : Nat) (rest : List Nat) (hfs : free_pages s = f0 :: rest) :
    ∃ s', new_process (p : Int) n s = some s' ∧
      free_pages s' = rest.drop n.toNat ∧
      s'.out = s.out ++
        (if rest.length < n.toNat then [Line.oom_data_page (p : Int)] else []) ∧
      s'.mem (64 + p) = f0 ∧ s'.mem f0 = 1 ∧
      (∀ j f, j < n.toNat → rest[j]? = some f →
        s'.mem (f0 * 256 + j) = f ∧ s'.mem f = 1) ∧
      (∀ a, a ≠ 64 + p → a ≠ f0 → a ∉ rest.take n.toNat →
        (∀ j, j < n.toNat → j < rest.length → a ≠ f0 * 256 + j) →
        s'.mem a = s.mem a) := by
  have hfm : f0 ∈ free_pages s := by rw [hfs]; exact List.mem_cons_self _ _
  have hf64 : f0 < 64 := ((mem_free_pages s f0).1 hfm).1
  have hf1 : 1 ≤ f0 := free_pages_pos s h0 f0 hfm
  have hfr : f0 ∉ rest := by
    have hnd := free_pages_nodup s
    rw [hfs] at hnd
    exact (List.nodup_cons.1 hnd).1
  have hrest : ∀ a, a ∈ rest → a < 64 := fun a ha =>
    ((mem_free_pages s a).1 (by rw [hfs]; exact List.mem_cons_of_mem _ ha)).1
  have hlen := free_pages_length_le s h0
  rw [hfs, List.length_cons] at hlen
  let s1 : State :=
    { s with mem := write s.mem f0 1, allocated_pages := s.allocated_pages + 1 }
  let s2 : State := { s1 with mem := write s1.mem (64 + p) f0 }
  have hs1 : free_pages s1 = rest := free_pages_alloc s s1 f0 rest hfs rfl
  have hs2 : free_pages s2 = rest := by
    rw [← hs1]
    exact free_pages_congr _ _ fun a ha => write_other _ _ _ _ (by omega)
  have h02 : s2.mem 0 ≠ 0 := by
    show write (write s.mem f0 1) (64 + p) f0 0 ≠ 0
    rw [write_other _ _ _ _ (by omega), write_other _ _ _ _ (by omega)]
    exact h0
  obtain ⟨s', e1, e2, e3, e4, e5⟩ :=
    new_process_loop_spec (p : Int) f0 hf1 hf64 n.toNat 0 s2 h02 (by rw [hs2]; omega)
  rw [hs2] at e2 e3 e4 e5
  have hstep : new_process (p : Int) n s = some s' := by
    unfold new_process
    rw [allocate_a_page_cons s f0 rest hfs]
    simp only
    rw [if_neg (by omega), ptp_nat, store_nat _ _ _ (by omega), toByte_nat f0 (by omega),
      Option.some_bind]
    exact e1
  have hpres : ∀ a, a < 256 → a ∉ rest → s'.mem a = s2.mem a := by
    intro a ha har
    exact e5 a (fun hm => har (List.mem_of_mem_take hm)) fun j _ _ => by omega
  refine ⟨s', hstep, e2, e3, ?_, ?_, ?_, ?_⟩
  · rw [hpres (64 + p) (by omega) fun hm => by have := hrest _ hm; omega]
    exact write_same _ _ _
  · rw [hpres f0 (by omega) hfr]
    show write (write s.mem f0 1) (64 + p) f0 f0 = 1
    rw [write_other _ _ _ _ (by omega), write_same]
  · intro j f hj hf
    have := e4 j f hj hf
    rw [Nat.zero_add] at this
    exact this
  · intro a ha1 ha2 ha3 ha4
    rw [e5 a ha3 fun j hj hj' => by rw [Nat.zero_add]; exact ha4 j hj hj']
    show write (write s.mem f0 1) (64 + p) f0 a = s.mem a
    rw [write_other _ _ _ _ ha1, write_other _ _ _ _ ha2]

theorem initialize_mem_mem : initialize_mem.mem = write (fun _ => 0) 0 1 := rfl

theorem fresh_inv_initialize_mem : fresh_inv initialize_mem := by
  refine ⟨by decide, ?_, ?_⟩
  · intro a
    rw [initialize_mem_mem]
    by_cases h : a = 0
    · rw [h, write_same]
      omega
    · rw [write_other _ _ _ _ h]
      omega
  · intro a h _
    rw [initialize_mem_mem, write_other _ _ _ _ (by omega)]

/-- `new_process` returns and keeps `fresh_inv`. -/
theorem new_process_fresh_inv (s : State) (p : Nat) (n : Int) (hp : p < 64)
    (h : fresh_inv s) : ∃ s', new_process (p : Int) n s = some s' ∧ fresh_inv s' := by
  obtain ⟨h0, hb, hc⟩ := h
  cases hfs : free_pages s with
  | nil => exact ⟨_, new_process_nil _ _ s hfs, h0, hb, hc⟩
  | cons f0 rest =>
    have hfm : f0 ∈ free_pages s := by rw [hfs]; exact List.mem_cons_self _ _
    have hf64 : f0 < 64 := ((mem_free_pages s f0).1 hfm).1
    have hf1 : 1 ≤ f0 := free_pages_pos s h0 f0 hfm
    have hrest : ∀ a, a ∈ rest → 1 ≤ a ∧ a < 64 := fun a ha =>
      have hm : a ∈ free_pages s := by rw [hfs]; exact List.mem_cons_of_mem _ ha
      ⟨free_pages_pos s h0 a hm, ((mem_free_pages s a).1 hm).1⟩
    have hlen := free_pages_length_le s h0
    rw [hfs, List.length_cons] at hlen
    obtain ⟨s', e1, _, _, e4, e5, e6, e7⟩ := new_process_cons s p n hp h0 f0 rest hfs
    have hframe : ∀ a, a ≠ 64 + p → a ≠ f0 → a ∉ rest →
        (∀ j, j < rest.length → a ≠ f0 * 256 + j) → s'.mem a = s.mem a :=
      fun a h1 h2 h3 h4 =>
        e7 a h1 h2 (fun hm => h3 (List.mem_of_mem_take hm)) fun j _ hj => h4 j hj
    refine ⟨s', e1, ?_, ?_, ?_⟩
    · rw [hframe 0 (by omega) (by omega) (fun hm => by have := hrest 0 hm; omega)
        (fun j _ => by omega)]
      exact h0
    · intro a
      by_cases h1 : a = 64 + p
      · rw [h1, e4]
        exact hf64
      by_cases h2 : a = f0
      · rw [h2, e5]
        omega
      by_cases h3 : a ∈ rest.take n.toNat
      · obtain ⟨j, hj1, hj2, hj3⟩ := mem_take_getD rest n.toNat a h3
        have := (e6 j a hj1 (by rw [getD_some rest j hj2, hj3])).2
        rw [this]
        omega
      by_cases h4 : ∃ j, j < n.toNat ∧ j < rest.length ∧ a = f0 * 256 + j
      · obtain ⟨j, hj1, hj2, hj3⟩ := h4
        rw [hj3, (e6 j _ hj1 (getD_some rest j hj2)).1]
        exact (hrest _ (getD_mem rest j hj2)).2
      · rw [e7 a h1 h2 h3 fun j hj1 hj2 e => h4 ⟨j, hj1, hj2, e⟩]
        exact hb a
    · intro a ha1 ha2
      rw [hframe a (by omega) (by omega) (fun hm => by have := hrest a hm; omega)
        (fun j hj => by omega)]
      exact hc a ha1 ha2

/-- A list of `new_process` calls with process ids in `[0,64)` returns and keeps
`fresh_inv`. -/
theorem run_new_fresh_inv : ∀ (cs : List (Nat × Int)) (s : State),
    (∀ c ∈ cs, c.1 < 64) → fresh_inv s → ∃ s', run_new cs s = some s' ∧ fresh_inv s'
  | [], s, _, h => ⟨s, rfl, h⟩
  | c :: cs, s, hc, h => by
    obtain ⟨s1, e1, h1⟩ := new_process_fresh_inv s c.1 c.2 (hc c (List.mem_cons_self _ _)) h
    obtain ⟨s2, e2, h2⟩ :=
      run_new_fresh_inv cs s1 (fun d hd => hc d (List.mem_cons_of_mem _ hd)) h1
    refine ⟨s2, ?_, h2⟩
    unfold run_new
    rw [e1, Option.some_bind]
    exact e2

/-! ## `kill_process` -/

/-- The loop of `kill_process` over entries `i, ..., i+k-1` of a page table
`pt` that is a page other than page 0 and whose entries are bytes: it clears
`mem[e]` for every nonzero entry `e` and nothing else. -/
theorem kill_process_loop_spec (pt : Nat) (hpt1 : 1 ≤ pt) (hpt : pt < 64) :
    ∀ (k i : Nat) (s : State), i + k ≤ 256 →
    (∀ j, j < 256 → s.mem (pt * 256 + j) < 256) →
    ∃ s', kill_process_loop (pt : Int) k i s = some s' ∧
      s'.out = s.out ∧
      (∀ j, i ≤ j → j < i + k → s.mem (pt * 256 + j) ≠ 0 →
        s'.mem (s.mem (pt * 256 + j)) = 0) ∧
      (∀ a, (∀ j, i ≤ j → j < i + k → s.mem (pt * 256 + j) ≠ 0 →
        s.mem (pt * 256 + j) ≠ a) → s'.mem a = s.mem a) ∧
      (∀ a, s'.mem a = 0 ∨ s'.mem a = s.mem a) := by
  intro k
  induction k with
  | zero =>
    intro i s _ _
    exact ⟨s, rfl, rfl, fun j h1 h2 => by omega, fun _ _ => rfl, fun _ => Or.inr rfl⟩
  | succ k ih =>
    intro i s hik hb
    have hei := hb i (by omega)
    by_cases he : s.mem (pt * 256 + i) = 0
    · obtain ⟨s', e1, e2, e3, e4, e5⟩ := ih (i + 1) s (by omega) hb
      refine ⟨s', ?_, e2, ?_, ?_, e5⟩
      · unfold kill_process_loop
        rw [get_address_nat pt i (by omega), load_nat s _ (by omega), Option.some_bind, he]
        exact e1
      · intro j h1 h2 h3
        have : j ≠ i := fun e => h3 (e ▸ he)
        exact e3 j (by omega) (by omega) h3
      · intro a ha
        exact e4 a fun j h1 h2 => ha j (by omega) (by omega)
    · let s1 : State := { s with mem := write s.mem (s.mem (pt * 256 + i)) 0 }
      have htab : ∀ j, j < 256 → s1.mem (pt * 256 + j) = s.mem (pt * 256 + j) :=
        fun j _ => write_other _ _ _ _ (by omega)
      obtain ⟨s', e1, e2, e3, e4, e5⟩ := ih (i + 1) s1 (by omega)
        (fun j hj => by rw [htab j hj]; exact hb j hj)
      refine ⟨s', ?_, e2, ?_, ?_, ?_⟩
      · unfold kill_process_loop
        rw [get_address_nat pt i (by omega), load_nat s _ (by omega), Option.some_bind,
          if_pos (by omega), store_nat s _ 0 (by omega), Option.some_bind]
        exact e1
      · intro j h1 h2 h3
        by_cases hj : j = i
        · subst hj
          rcases e5 (s.mem (pt * 256 + j)) with h | h
          · exact h
          · rw [h]
            exact write_same _ _ _
        · have := e3 j (by omega) (by omega) (by rw [htab j (by omega)]; exact h3)
          rw [htab j (by omega)] at this
          exact this
      · intro a ha
        rw [e4 a fun j h1 h2 h3 => by
          rw [htab j (by omega)] at h3 ⊢
          exact ha j (by omega) (by omega) h3]
        exact write_other _ _ _ _ fun e => ha i (by omega) (by omega) he e.symm
      · intro a
        rcases e5 a with h | h
        · exact Or.inl h
        · rw [h]
          by_cases ha : a = s.mem (pt * 256 + i)
          · left
            rw [ha]
            exact write_same _ _ _
          · right
            exact write_other _ _ _ _ ha

/-- The effect of `kill_process` on a process `p` whose page table `t` is a page
other than page 0 and holds bytes: the free-map bytes of `t` and of the pages
named by the nonzero entries `0..63` of `t` are cleared, and so is the PTPT
entry; nothing else changes. -/
theorem kill_process_spec (s : State) (p : Nat) (hp : p < 64)
    (ht1 : 1 ≤ s.mem (64 + p)) (ht : s.mem (64 + p) < 64)
    (hb : ∀ j, j < 256 → s.mem (s.mem (64 + p) * 256 + j) < 256) :
    ∃ s', kill_process (p : Int) s = some s' ∧
      s'.out = s.out ∧
      s'.mem (s.mem (64 + p)) = 0 ∧ s'.mem (64 + p) = 0 ∧
      (∀ j, j < 64 → s.mem (s.mem (64 + p) * 256 + j) ≠ 0 →
        s'.mem (s.mem (s.mem (64 + p) * 256 + j)) = 0) ∧
      (∀ a, a ≠ s.mem (64 + p) → a ≠ 64 + p →
        (∀ j, j < 64 → s.mem (s.mem (64 + p) * 256 + j) ≠ 0 →
          s.mem (s.mem (64 + p) * 256 + j) ≠ a) → s'.mem a = s.mem a) := by
  obtain ⟨s1, e1, e2, e3, e4, _⟩ :=
    kill_process_loop_spec (s.mem (64 + p)) ht1 ht 64 0 s (by omega) hb
  let s2 : State := { s1 with mem := write s1.mem (s.mem (64 + p)) 0 }
  let s3 : State := { s2 with mem := write s2.mem (64 + p) 0 }
  have hz : ∀ a, s1.mem a = 0 → s3.mem a = 0 := by
    intro a ha
    show write (write s1.mem (s.mem (64 + p)) 0) (64 + p) 0 a = 0
    by_cases h1 : a = 64 + p
    · rw [h1]
      exact write_same _ _ _
    · rw [write_other _ _ _ _ h1]
      by_cases h2 : a = s.mem (64 + p)
      · rw [h2]
        exact write_same _ _ _
      · rw [write_other _ _ _ _ h2]
        exact ha
  refine ⟨s3, ?_, e2, ?_, write_same _ _ _, ?_, ?_⟩
  · unfold kill_process
    rw [get_page_table_nat s p hp, Option.some_bind]
    unfold PAGE_COUNT
    rw [e1, Option.some_bind, store_nat s1 _ 0 (by omega), Option.some_bind, ptp_nat,
      store_nat _ _ 0 (by omega)]
    rfl
  · show write (write s1.mem (s.mem (64 + p)) 0) (64 + p) 0 (s.mem (64 + p)) = 0
    rw [write_other _ _ _ _ (by omega)]
    exact write_same _ _ _
  · intro j hj hne
    exact hz _ (e3 j (Nat.zero_le _) (by omega) hne)
  · intro a ha1 ha2 ha3
    show write (write s1.mem (s.mem (64 + p)) 0) (64 + p) 0 a = s.mem a
    rw [write_other _ _ _ _ ha2, write_other _ _ _ _ ha1]
    exact e4 a fun j _ hj hne => ha3 j (by omega) hne

/-! ## Page 0 under the commands -/

theorem store_mem_zero (s s' : State) (z v : Int) (h : store s z v = some s') (hz : z ≠ 0) :
    s'.mem 0 = s.mem 0 := by
  cases z with
  | ofNat a =>
    have ha : 0 ≠ a := fun e => hz (by rw [← e]; rfl)
    by_cases hlt : a < MEM_SIZE
    · have e : store s (Int.ofNat a) v = some { s with mem := write s.mem a (toByte v) } :=
        if_pos hlt
      rw [e, Option.some.injEq] at h
      rw [← h]
      exact write_other _ _ _ _ ha
    · have e : store s (Int.ofNat a) v = none := if_neg hlt
      rw [e] at h
      exact Option.noConfusion h
  | negSucc a => exact Option.noConfusion h

theorem kill_process_loop_mem_zero (pt : Int) : ∀ (k i : Nat) (s s' : State),
    kill_process_loop pt k i s = some s' → s'.mem 0 = s.mem 0 := by
  intro k
  induction k with
  | zero =>
    intro i s s' h
    rw [show kill_process_loop pt 0 i s = some s from rfl, Option.some.injEq] at h
    rw [h]
  | succ k ih =>
    intro i s s' h
    unfold kill_process_loop at h
    cases hl : load s (get_address pt (i : Int)) with
    | none => rw [hl] at h; exact Option.noConfusion h
    | some page =>
      rw [hl, Option.some_bind] at h
      by_cases hpg : (page : Int) ≠ 0
      · rw [if_pos hpg] at h
        cases hst : store s (page : Int) 0 with
        | none => rw [hst] at h; exact Option.noConfusion h
        | some s1 =>
          rw [hst, Option.some_bind] at h
          rw [ih (i + 1) s1 s' h]
          exact store_mem_zero s s1 _ _ hst hpg
      · rw [if_neg hpg, Option.some_bind] at h
        exact ih (i + 1) s s' h

theorem kill_process_mem_zero (s s' : State) (p : Nat) (hp : p < 64)
    (ht : s.mem (64 + p) ≠ 0) (h : kill_process (p : Int) s = some s') :
    s'.mem 0 = s.mem 0 := by
  unfold kill_process at h
  rw [get_page_table_nat s p hp, Option.some_bind] at h
  cases hl : kill_process_loop ((s.mem (64 + p) : Nat) : Int) PAGE_COUNT 0 s with
  | none => rw [hl] at h; exact Option.noConfusion h
  | some s1 =>
    rw [hl, Option.some_bind] at h
    cases hs2 : store s1 ((s.mem (64 + p) : Nat) : Int) 0 with
    | none => rw [hs2] at h; exact Option.noConfusion h
    | some s2 =>
      rw [hs2, Option.some_bind, ptp_nat] at h
      rw [store_mem_zero s2 s' _ _ h (by omega),
        store_mem_zero s1 s2 _ _ hs2 (by omega)]
      exact kill_process_loop_mem_zero _ _ _ _ _ hl

theorem tmod_gt (v : Int) : -256 < Int.tmod v ((PAGE_SIZE : Nat) : Int) := by
  cases v with
  | ofNat m =>
    show -256 < ((m % 256 : Nat) : Int)
    omega
  | negSucc m =>
    show -256 < -(((m + 1) % 256 : Nat) : Int)
    omega

theorem store_value_mem_zero (s s' : State) (p : Nat) (v x : Int)
    (hg : page_entry (p : Int) v s ≠ some 0) (h : store_value (p : Int) v x s = some s') :
    s'.mem 0 = s.mem 0 := by
  unfold store_value vert_to_phys at h
  unfold page_entry at hg
  cases hpt : get_page_table (p : Int) s with
  | none => rw [hpt] at h; exact Option.noConfusion h
  | some pt =>
    rw [hpt, Option.some_bind] at h hg
    dsimp only at h
    cases hl : load s (get_address (pt : Int) (Int.tdiv v ((PAGE_SIZE : Nat) : Int))) with
    | none => rw [hl] at h; exact Option.noConfusion h
    | some e =>
      rw [hl] at hg
      rw [hl, Option.some_bind, Option.some_bind] at h
      have he : e ≠ 0 := fun e0 => hg (by rw [e0])
      have hlow := tmod_gt v
      have hP : ((PAGE_SIZE : Nat) : Int) = 256 := rfl
      cases hst : store s ((e : Int) * ((PAGE_SIZE : Nat) : Int) +
          Int.tmod v ((PAGE_SIZE : Nat) : Int)) x with
      | none => rw [hst] at h; exact Option.noConfusion h
      | some s1 =>
        rw [hst, Option.some_bind, Option.some.injEq] at h
        rw [← h]
        exact store_mem_zero s s1 _ _ hst (by rw [hP] at hlow ⊢; omega)

theorem load_value_mem (s s' : State) (p v : Int) (h : load_value p v s = some s') :
    s'.mem = s.mem := by
  unfold load_value at h
  cases hv : vert_to_phys p v s with
  | none => rw [hv] at h; exact Option.noConfusion h
  | some a =>
    rw [hv, Option.some_bind] at h
    cases hl : load s a with
    | none => rw [hl] at h; exact Option.noConfusion h
    | some x =>
      rw [hl, Option.some_bind, Option.some.injEq] at h
      rw [← h]

theorem new_process_mem_zero (s s' : State) (p : Nat) (n : Int) (hp : p < 64)
    (h0 : s.mem 0 ≠ 0) (h : new_process (p : Int) n s = some s') : s'.mem 0 = s.mem 0 := by
  cases hfs : free_pages s with
  | nil =>
    rw [new_process_nil _ _ s hfs, Option.some.injEq] at h
    rw [← h]
  | cons f0 rest =>
    obtain ⟨s'', e1, _, _, _, _, _, e7⟩ := new_process_cons s p n hp h0 f0 rest hfs
    rw [e1, Option.some.injEq] at h
    rw [← h]
    have hpos : ∀ a, a ∈ f0 :: rest → 1 ≤ a := fun a ha =>
      free_pages_pos s h0 a (by rw [hfs]; exact ha)
    exact e7 0 (by omega) (fun e => by have := hpos f0 (List.mem_cons_self _ _); omega)
      (fun hm => by
        have := hpos 0 (List.mem_cons_of_mem _ (List.mem_of_mem_take hm))
        omega)
      (fun j _ _ => by have := hpos f0 (List.mem_cons_self _ _); omega)

theorem step_mem_zero (c : Cmd) (s s' : State) (hp : c.pid < 64)
    (hg : addresses_mapping c s = true) (h0 : s.mem 0 ≠ 0) (h : step c s = some s') :
    s'.mem 0 ≠ 0 := by
  cases c with
  | np p n => rw [new_process_mem_zero s s' p n hp h0 h]; exact h0
  | kp p =>
    rw [kill_process_mem_zero s s' p hp (of_decide_eq_true hg) h]
    exact h0
  | sb p v x =>
    rw [store_value_mem_zero s s' p v x (of_decide_eq_true hg) h]
    exact h0
  | lb p v => rw [load_value_mem s s' _ _ h]; exact h0

theorem run_mem_zero : ∀ (cs : List Cmd) (s s' : State), (∀ c ∈ cs, c.pid < 64) →
    all_address_mappings cs s = true → s.mem 0 ≠ 0 → run cs s = some s' → s'.mem 0 ≠ 0
  | [], s, s', _, _, h0, h => by
    rw [show run [] s = some s from rfl, Option.some.injEq] at h
    rw [← h]
    exact h0
  | c :: cs, s, s', hp, hg, h0, h => by
    unfold run at h
    unfold all_address_mappings at hg
    rw [Bool.and_eq_true] at hg
    cases hst : step c s with
    | none => rw [hst] at h; exact Option.noConfusion h
    | some s1 =>
      rw [hst, Option.some_bind] at h
      have hg2 := hg.2
      rw [hst] at hg2
      exact run_mem_zero cs s1 s' (fun d hd => hp d (List.mem_cons_of_mem _ hd)) hg2
        (step_mem_zero c s s1 (hp c (List.mem_cons_self _ _)) hg.1 h0 hst) h

theorem allocate_a_page_ne_zero (s : State) (h0 : s.mem 0 ≠ 0) :
    (allocate_a_page s).1 ≠ 0 := by
  cases hfs : free_pages s with
  | nil =>
    rw [allocate_a_page_nil s hfs]
    show (-1 : Int) ≠ 0
    decide
  | cons f rest =>
    rw [allocate_a_page_cons s f rest hfs]
    have := free_pages_pos s h0 f (by rw [hfs]; exact List.mem_cons_self _ _)
    show (f : Int) ≠ 0
    omega

/-! ## Process ids beyond the PTPT -/

theorem get_address_zero (x : Nat) : get_address 0 (x : Int) = (x : Int) := by
  show Int.lor (((0 : Nat) : Int) <<< ((8 : Nat) : Int)) (x : Int) = (x : Int)
  rw [Int.shiftLeft_coe_nat]
  show (((0 <<< 8 ||| x : Nat)) : Int) = (x : Int)
  rw [Nat.zero_shiftLeft, Nat.zero_or]

/-- For any process id `p >= 0` with `64 + p` inside the array, `get_page_table`
reads `mem[64 + p]`. -/
theorem get_page_table_far (s : State) (p : Nat) (hp : 64 + p < 16384) :
    get_page_table (p : Int) s = some (s.mem (64 + p)) := by
  unfold get_page_table
  rw [ptp_nat, get_address_zero, load_nat s _ hp]

theorem store_value_far (s : State) (p v : Nat) (x : Int) (hp : 64 + p < 16384)
    (hv : v < 16384) (ht : s.mem (64 + p) < 64)
    (he : s.mem (s.mem (64 + p) * 256 + v / 256) < 64) :
    store_value (p : Int) (v : Int) x s =
      some { mem := write s.mem (s.mem (s.mem (64 + p) * 256 + v / 256) * 256 + v % 256)
               (toByte x)
             allocated_pages := s.allocated_pages
             out := s.out ++ [Line.store_line (p : Int) (v : Int)
               ((s.mem (s.mem (64 + p) * 256 + v / 256) * 256 + v % 256 : Nat) : Int) x] } := by
  unfold store_value vert_to_phys
  rw [get_page_table_far s p hp]
  simp only [Option.some_bind]
  rw [tdiv_nat, tmod_nat, get_address_nat _ _ (by omega), load_nat s _ (by omega)]
  simp only [Option.some_bind]
  rw [phys_nat, store_nat s _ x (by omega)]
  rfl

theorem kill_process_far (s : State) (p : Nat) (hp : 64 + p < 16384)
    (ht1 : 1 ≤ s.mem (64 + p)) (ht : s.mem (64 + p) < 64)
    (hb : ∀ j, j < 256 → s.mem (s.mem (64 + p) * 256 + j) < 256) :
    ∃ s', kill_process (p : Int) s = some s' ∧
      s'.mem (s.mem (64 + p)) = 0 ∧ s'.mem (64 + p) = 0 ∧
      (∀ j, j < 64 → s.mem (s.mem (64 + p) * 256 + j) ≠ 0 →
        s'.mem (s.mem (s.mem (64 + p) * 256 + j)) = 0) := by
  obtain ⟨s1, e1, _, e3, _, _⟩ :=
    kill_process_loop_spec (s.mem (64 + p)) ht1 ht 64 0 s (by omega) hb
  let s2 : State := { s1 with mem := write s1.mem (s.mem (64 + p)) 0 }
  let s3 : State := { s2 with mem := write s2.mem (64 + p) 0 }
  have hs3 : s3.mem = write (write s1.mem (s.mem (64 + p)) 0) (64 + p) 0 := rfl
  have hz : ∀ a, s1.mem a = 0 ∨ a = s.mem (64 + p) → s3.mem a = 0 := by
    intro a ha
    rw [hs3]
    by_cases h1 : a = 64 + p
    · rw [h1]
      exact write_same _ _ _
    · rw [write_other _ _ _ _ h1]
      by_cases h2 : a = s.mem (64 + p)
      · rw [h2]
        exact write_same _ _ _
      · rw [write_other _ _ _ _ h2]
        exact ha.resolve_right h2
  refine ⟨s3, ?_, hz _ (Or.inr rfl), ?_, ?_⟩
  · unfold kill_process
    rw [get_page_table_far s p hp, Option.some_bind]
    unfold PAGE_COUNT
    rw [e1, Option.some_bind, store_nat s1 _ 0 (by omega), Option.some_bind, ptp_nat,
      store_nat _ _ 0 hp]
    rfl
  · rw [hs3]
    exact write_same _ _ _
  · intro j hj hne
    exact hz _ (Or.inl (e3 j (Nat.zero_le _) (by omega) hne))

theorem new_process_far (s : State) (p : Nat) (n : Int) (hp : 64 + p < 16384)
    (h0 : s.mem 0 ≠ 0) (f0 : Nat) (rest : List Nat) (hfs : free_pages s = f0 :: rest) :
    ∃ s', new_process (p : Int) n s = some s' ∧ s.mem f0 = 0 ∧ s'.mem f0 = 1 ∧
      ((∀ j, j < n.toNat → j < rest.length → 64 + p ≠ f0 * 256 + j) →
        s'.mem (64 + p) = f0) := by
  have hfm : f0 ∈ free_pages s := by rw [hfs]; exact List.mem_cons_self _ _
  have hf64 : f0 < 64 := ((mem_free_pages s f0).1 hfm).1
  have hf1 : 1 ≤ f0 := free_pages_pos s h0 f0 hfm
  have hfr : f0 ∉ rest := by
    have hnd := free_pages_nodup s
    rw [hfs] at hnd
    exact (List.nodup_cons.1 hnd).1
  have hrest : ∀ a, a ∈ rest → a < 64 := fun a ha =>
    ((mem_free_pages s a).1 (by rw [hfs]; exact List.mem_cons_of_mem _ ha)).1
  have hlen := free_pages_length_le s h0
  rw [hfs, List.length_cons] at hlen
  let s1 : State :=
    { s with mem := write s.mem f0 1, allocated_pages := s.allocated_pages + 1 }
  let s2 : State := { s1 with mem := write s1.mem (64 + p) f0 }
  have hs2m : s2.mem = write (write s.mem f0 1) (64 + p) f0 := rfl
  have hs1 : free_pages s1 = rest := free_pages_alloc s s1 f0 rest hfs rfl
  have hs2 : free_pages s2 = rest := by
    rw [← hs1]
    exact free_pages_congr _ _ fun a ha => write_other _ _ _ _ (by omega)
  have h02 : s2.mem 0 ≠ 0 := by
    rw [hs2m, write_other _ _ _ _ (by omega), write_other _ _ _ _ (by omega)]
    exact h0
  obtain ⟨s', e1, _, _, _, e5⟩ :=
    new_process_loop_spec (p : Int) f0 hf1 hf64 n.toNat 0 s2 h02 (by rw [hs2]; omega)
  rw [hs2] at e5
  have hstep : new_process (p : Int) n s = some s' := by
    unfold new_process
    rw [allocate_a_page_cons s f0 rest hfs]
    simp only
    rw [if_neg (by omega), ptp_nat, store_nat _ _ _ hp, toByte_nat f0 (by omega),
      Option.some_bind]
    exact e1
  refine ⟨s', hstep, ((mem_free_pages s f0).1 hfm).2, ?_, ?_⟩
  · rw [e5 f0 (fun hm => hfr (List.mem_of_mem_take hm)) (fun j _ _ => by omega), hs2m,
      write_other _ _ _ _ (by omega), write_same]
  · intro hne
    rw [e5 (64 + p) (fun hm => by have := hrest _ (List.mem_of_mem_take hm); omega)
      (fun j hj hj' => by rw [Nat.zero_add]; exact hne j hj hj'), hs2m]
    exact write_same _ _ _

/-! ## Claims about `allocate_a_page` -/

/-- C1: in a state where some free-map byte `mem[0..63]` is zero,
`allocate_a_page` returns the smallest index `i` in `[0,64)` with `mem[i] == 0`,
sets `mem[i]` to 1 and leaves every other byte of memory unchanged; in
particular the free-map byte of a page that is already allocated keeps its
value. -/
theorem allocate_a_page_first_fit (s : State) (h : ∃ i, i < 64 ∧ s.mem i = 0) :
    ∃ i : Nat, i < 64 ∧ (allocate_a_page s).1 = (i : Int) ∧ s.mem i = 0 ∧
      (∀ j, j < i → s.mem j ≠ 0) ∧
      (allocate_a_page s).2.mem i = 1 ∧
      (∀ a, a ≠ i → (allocate_a_page s).2.mem a = s.mem a) ∧
      (∀ j, j < 64 → s.mem j ≠ 0 → (allocate_a_page s).2.mem j = s.mem j) := by
  obtain ⟨i, hi, hz⟩ := h
  have hmem : i ∈ free_pages s := (mem_free_pages s i).2 ⟨hi, hz⟩
  cases hfs : free_pages s with
  | nil => rw [hfs] at hmem; exact absurd hmem (List.not_mem_nil _)
  | cons f rest =>
    obtain ⟨h1, h2, h3⟩ := free_pages_head_least s f rest hfs
    rw [allocate_a_page_cons s f rest hfs]
    refine ⟨f, h1, rfl, h2, h3, write_same _ _ _, fun a ha => write_other _ _ _ _ ha, ?_⟩
    intro j _ hj
    exact write_other _ _ _ _ fun e => hj (e ▸ h2)

/-- Witness of C1: freshly initialised memory, where page 1 is returned. -/
theorem allocate_a_page_first_fit_witness :
    (∃ i, i < 64 ∧ initialize_mem.mem i = 0) ∧
    ∃ i : Nat, i < 64 ∧ (allocate_a_page initialize_mem).1 = (i : Int) ∧
      initialize_mem.mem i = 0 ∧
      (∀ j, j < i → initialize_mem.mem j ≠ 0) ∧
      (allocate_a_page initialize_mem).2.mem i = 1 ∧
      (∀ a, a ≠ i → (allocate_a_page initialize_mem).2.mem a = initialize_mem.mem a) ∧
      (∀ j, j < 64 → initialize_mem.mem j ≠ 0 →
        (allocate_a_page initialize_mem).2.mem j = initialize_mem.mem j) :=
  ⟨⟨1, by decide, by decide⟩,
    allocate_a_page_first_fit initialize_mem ⟨1, by decide, by decide⟩⟩

/-- C10: `allocate_a_page` returns -1 exactly when every free-map byte
`mem[0..63]` is nonzero, and then the state (memory included) is unchanged. -/
theorem allocate_a_page_oom_iff (s : State) :
    ((allocate_a_page s).1 = -1 ↔ ∀ i, i < 64 → s.mem i ≠ 0) ∧
    ((allocate_a_page s).1 = -1 → (allocate_a_page s).2 = s) := by
  cases hfs : free_pages s with
  | nil =>
    rw [allocate_a_page_nil s hfs]
    refine ⟨⟨fun _ i hi hz => ?_, fun _ => rfl⟩, fun _ => rfl⟩
    have : i ∈ free_pages s := (mem_free_pages s i).2 ⟨hi, hz⟩
    rw [hfs] at this
    exact absurd this (List.not_mem_nil _)
  | cons f rest =>
    obtain ⟨h1, h2, _⟩ := free_pages_head_least s f rest hfs
    rw [allocate_a_page_cons s f rest hfs]
    have hne : ((f : Int) = -1) ↔ False := ⟨fun e => by omega, False.elim⟩
    refine ⟨⟨fun e => ?_, fun hall => absurd h2 (hall f h1)⟩, fun e => ?_⟩
    · exact absurd e (by simp only [hne, not_false_eq_true])
    · exact absurd e (by simp only [hne, not_false_eq_true])

/-- Witness of C10: a state whose memory holds 1 everywhere. -/
theorem allocate_a_page_oom_iff_witness :
    (∀ i, i < 64 → (State.mk (fun _ => 1) 0 []).mem i ≠ 0) ∧
    (allocate_a_page (State.mk (fun _ => 1) 0 [])).1 = -1 ∧
    (allocate_a_page (State.mk (fun _ => 1) 0 [])).2 = State.mk (fun _ => 1) 0 [] :=
  have h : ∀ i, i < 64 → (State.mk (fun _ => 1) 0 []).mem i ≠ 0 :=
    fun _ _ => Nat.one_ne_zero
  ⟨h, (allocate_a_page_oom_iff _).1.2 h,
    (allocate_a_page_oom_iff _).2 ((allocate_a_page_oom_iff _).1.2 h)⟩

/-! ## Scenarios on freshly initialised memory -/

theorem scenario_np_0_2 :
    (new_process 0 2 initialize_mem).map
      (fun s' => (List.range 64).filter fun i => s'.mem i ≠ 0) = some [0, 1, 2, 3] := by
  decide

set_option maxRecDepth 1000000 in
theorem scenario_np_0_64 :
    (new_process 0 64 initialize_mem).map
      (fun s' => (s'.mem 64, (List.range 62).map (fun i => s'.mem (256 + i)), s'.out)) =
      some (1, (List.range 62).map (fun i => i + 2), [Line.oom_data_page 0]) := by
  decide

theorem free_pages_initialize_mem : free_pages initialize_mem = 1 :: List.range' 2 62 := by
  decide

theorem range_two_getElem : ∀ j, j < 62 → (List.range' 2 62)[j]? = some (j + 2) := by
  decide

/-- A `new_process(p, n)` call on freshly initialised memory that prints nothing:
page 1 is the page table and entry `j` is page `j + 2`, for `j < n <= 62`. -/
theorem new_process_fresh (p n : Nat) (hp : p < 64)
    (hok : (new_process (p : Int) (n : Int) initialize_mem).map State.out = some []) :
    n ≤ 62 ∧ ∃ s, new_process (p : Int) (n : Int) initialize_mem = some s ∧ s.out = [] ∧
      s.mem (64 + p) = 1 ∧ ∀ j, j < n → s.mem (256 + j) = j + 2 := by
  obtain ⟨s, e1, _, e3, e4, _, e6, _⟩ := new_process_cons initialize_mem p (n : Int) hp
    (by decide) 1 (List.range' 2 62) free_pages_initialize_mem
  rw [Int.toNat_ofNat] at e3 e6
  rw [e1, Option.map_some', Option.some.injEq] at hok
  have hn : n ≤ 62 := by
    by_contra hc
    rw [hok, List.length_range', if_pos (by omega)] at e3
    exact List.noConfusion e3
  refine ⟨hn, s, e1, hok, e4, fun j hj => ?_⟩
  have := (e6 j (j + 2) hj (range_two_getElem j (by omega))).1
  rw [Nat.one_mul] at this
  exact this

theorem scenario_np_kp :
    ((new_process 1 1 initialize_mem).bind (kill_process 1)).map
      (fun s => (List.range 64).filter fun i => s.mem i ≠ 0) = some [0] := by
  decide

/-! ## Claims about `new_process` -/

/-- C5: in a state with `mem[0] != 0`, for a process id `p` in `[0,64)` and
`n` such that at least `n+1` pages are free, with `f0 < f1 < ... < fn` the
`n+1` lowest free pages: `new_process(p, n)` returns without an out-of-memory
report and leaves `mem[64+p] == f0`, `mem[f0*256 + i] == f(i+1)` for every
`i < n`, the free-map bytes of `f0..fn` nonzero, and every other byte of memory
unchanged. In particular `new_process(0, 2)` on freshly initialised memory
leaves exactly pages 0, 1, 2, 3 marked used. -/
theorem new_process_allocates (s : State) (p n : Nat) (h0 : s.mem 0 ≠ 0) (hp : p < 64)
    (hn : n + 1 ≤ (free_pages s).length) :
    (∃ s', new_process (p : Int) (n : Int) s = some s' ∧
      s'.out = s.out ∧
      s'.mem (64 + p) = (free_pages s).getD 0 0 ∧
      (∀ i, i < n →
        s'.mem ((free_pages s).getD 0 0 * 256 + i) = (free_pages s).getD (i + 1) 0) ∧
      (∀ i, i ≤ n → s'.mem ((free_pages s).getD i 0) ≠ 0) ∧
      (∀ a, a ≠ 64 + p →
        (∀ i, i < n → a ≠ (free_pages s).getD 0 0 * 256 + i) →
        (∀ i, i ≤ n → a ≠ (free_pages s).getD i 0) → s'.mem a = s.mem a)) ∧
    (new_process 0 2 initialize_mem).map
      (fun s' => (List.range 64).filter fun i => s'.mem i ≠ 0) = some [0, 1, 2, 3] := by
  refine ⟨?_, scenario_np_0_2⟩
  cases hfs : free_pages s with
  | nil => rw [hfs] at hn; simp at hn
  | cons f0 rest =>
    rw [hfs, List.length_cons] at hn
    obtain ⟨s', e1, _, e3, e4, e5, e6, e7⟩ := new_process_cons s p (n : Int) hp h0 f0 rest hfs
    rw [Int.toNat_ofNat] at e3 e6 e7
    refine ⟨s', e1, ?_, ?_, ?_, ?_, ?_⟩
    · rw [e3, if_neg (by omega), List.append_nil]
    · exact e4
    · intro i hi
      rw [List.getD_cons_succ]
      exact (e6 i _ hi (getD_some rest i (by omega))).1
    · intro i hi
      cases i with
      | zero =>
        show s'.mem f0 ≠ 0
        rw [e5]
        exact Nat.one_ne_zero
      | succ i =>
        rw [List.getD_cons_succ, (e6 i _ (by omega) (getD_some rest i (by omega))).2]
        exact Nat.one_ne_zero
    · intro a ha1 ha2 ha3
      refine e7 a ha1 (ha3 0 (Nat.zero_le _)) ?_ fun j hj _ => ha2 j hj
      intro hm
      obtain ⟨j, h1, _, h3⟩ := mem_take_getD rest n a hm
      exact ha3 (j + 1) (by omega) (by rw [List.getD_cons_succ]; exact h3.symm)

/-- Witness of C5: `new_process(0, 2)` on freshly initialised memory. -/
theorem new_process_allocates_witness :
    (initialize_mem.mem 0 ≠ 0 ∧ 0 < 64 ∧ 2 + 1 ≤ (free_pages initialize_mem).length) ∧
    (∃ s', new_process ((0 : Nat) : Int) ((2 : Nat) : Int) initialize_mem = some s' ∧
      s'.out = initialize_mem.out ∧
      s'.mem (64 + 0) = (free_pages initialize_mem).getD 0 0 ∧
      (∀ i, i < 2 →
        s'.mem ((free_pages initialize_mem).getD 0 0 * 256 + i) =
          (free_pages initialize_mem).getD (i + 1) 0) ∧
      (∀ i, i ≤ 2 → s'.mem ((free_pages initialize_mem).getD i 0) ≠ 0) ∧
      (∀ a, a ≠ 64 + 0 →
        (∀ i, i < 2 → a ≠ (free_pages initialize_mem).getD 0 0 * 256 + i) →
        (∀ i, i ≤ 2 → a ≠ (free_pages initialize_mem).getD i 0) →
        s'.mem a = initialize_mem.mem a)) ∧
    (new_process 0 2 initialize_mem).map
      (fun s' => (List.range 64).filter fun i => s'.mem i ≠ 0) = some [0, 1, 2, 3] :=
  ⟨⟨by decide, by decide, by decide⟩,
    new_process_allocates initialize_mem 0 2 (by decide) (by decide) (by decide)⟩

/-- C9: in a state with `mem[0] != 0` that has exactly `k >= 1` free pages
`f0 < ... < f(k-1)`, for a process id `p` in `[0,64)` and `n >= k`,
`new_process(p, n)` prints the data-page out-of-memory line and stops at data
page index `k-1`: all 64 free-map bytes are nonzero, `mem[64+p] == f0`, the
page-table entries `mem[f0*256 + i] == f(i+1)` for every `i < k-1` stay
linked, and no other byte (entry `k-1` included) is changed. In particular
`new_process(0, 64)` on freshly initialised memory leaves page 1 as the page
table with entries 0..61 mapped to pages 2..63. -/
theorem new_process_out_of_pages (s : State) (p n : Nat) (h0 : s.mem 0 ≠ 0) (hp : p < 64)
    (hk : 1 ≤ (free_pages s).length) (hn : (free_pages s).length ≤ n) :
    (∃ s', new_process (p : Int) (n : Int) s = some s' ∧
      s'.out = s.out ++ [Line.oom_data_page (p : Int)] ∧
      (∀ i, i < 64 → s'.mem i ≠ 0) ∧
      s'.mem (64 + p) = (free_pages s).getD 0 0 ∧
      (∀ i, i + 1 < (free_pages s).length →
        s'.mem ((free_pages s).getD 0 0 * 256 + i) = (free_pages s).getD (i + 1) 0) ∧
      (∀ a, a ≠ 64 + p →
        (∀ i, i + 1 < (free_pages s).length → a ≠ (free_pages s).getD 0 0 * 256 + i) →
        (∀ i, i < (free_pages s).length → a ≠ (free_pages s).getD i 0) →
        s'.mem a = s.mem a)) ∧
    (new_process 0 64 initialize_mem).map
      (fun s' => (s'.mem 64, (List.range 62).map (fun i => s'.mem (256 + i)), s'.out)) =
      some (1, (List.range 62).map (fun i => i + 2), [Line.oom_data_page 0]) := by
  refine ⟨?_, scenario_np_0_64⟩
  cases hfs : free_pages s with
  | nil => rw [hfs] at hk; simp at hk
  | cons f0 rest =>
    rw [hfs, List.length_cons] at hn
    have hfm : f0 ∈ free_pages s := by rw [hfs]; exact List.mem_cons_self _ _
    have hf64 : f0 < 64 := ((mem_free_pages s f0).1 hfm).1
    have hrest : ∀ a, a ∈ rest → a < 64 := fun a ha =>
      ((mem_free_pages s a).1 (by rw [hfs]; exact List.mem_cons_of_mem _ ha)).1
    obtain ⟨s', e1, _, e3, e4, e5, e6, e7⟩ := new_process_cons s p (n : Int) hp h0 f0 rest hfs
    rw [Int.toNat_ofNat] at e3 e6 e7
    have hframe : ∀ a, a ≠ 64 + p →
        (∀ i, i + 1 < (f0 :: rest).length → a ≠ (f0 :: rest).getD 0 0 * 256 + i) →
        (∀ i, i < (f0 :: rest).length → a ≠ (f0 :: rest).getD i 0) →
        s'.mem a = s.mem a := by
      intro a ha1 ha2 ha3
      refine e7 a ha1 (ha3 0 (by simp)) ?_ fun j _ hj => ha2 j (by simpa using hj)
      intro hm
      obtain ⟨j, _, h2, h3⟩ := mem_take_getD rest n a hm
      exact ha3 (j + 1) (by simpa using h2) (by rw [List.getD_cons_succ]; exact h3.symm)
    refine ⟨s', e1, ?_, ?_, e4, ?_, hframe⟩
    · rw [e3, if_pos (by omega)]
    · intro i hi
      by_cases hz : s.mem i = 0
      · have him : i ∈ f0 :: rest := by rw [← hfs]; exact (mem_free_pages s i).2 ⟨hi, hz⟩
        rcases List.mem_cons.1 him with h | h
        · rw [h, e5]
          exact Nat.one_ne_zero
        · obtain ⟨j, hj⟩ := List.mem_iff_getElem?.1 h
          have hjl : j < rest.length := by
            by_contra hc
            rw [List.getElem?_eq_none (by omega)] at hj
            exact Option.noConfusion hj
          rw [(e6 j i (by omega) hj).2]
          exact Nat.one_ne_zero
      · rw [hframe i (by omega)
          (fun j _ => by
            have : 1 ≤ f0 := free_pages_pos s h0 f0 hfm
            show i ≠ f0 * 256 + j
            omega)
          (fun j hj e => by
            have hm : (f0 :: rest).getD j 0 ∈ free_pages s := by
              rw [hfs]; exact getD_mem _ j hj
            rw [← e] at hm
            exact hz ((mem_free_pages s i).1 hm).2)]
        exact hz
    · intro i hi
      rw [List.getD_cons_succ]
      exact (e6 i _ (by simp at hi; omega) (getD_some rest i (by simpa using hi))).1

/-- Witness of C9: `new_process(0, 64)` on freshly initialised memory, with 63
free pages. -/
theorem new_process_out_of_pages_witness :
    (initialize_mem.mem 0 ≠ 0 ∧ 0 < 64 ∧ 1 ≤ (free_pages initialize_mem).length ∧
      (free_pages initialize_mem).length ≤ 64) ∧
    (∃ s', new_process ((0 : Nat) : Int) ((64 : Nat) : Int) initialize_mem = some s' ∧
      s'.out = initialize_mem.out ++ [Line.oom_data_page ((0 : Nat) : Int)] ∧
      (∀ i, i < 64 → s'.mem i ≠ 0) ∧
      s'.mem (64 + 0) = (free_pages initialize_mem).getD 0 0 ∧
      (∀ i, i + 1 < (free_pages initialize_mem).length →
        s'.mem ((free_pages initialize_mem).getD 0 0 * 256 + i) =
          (free_pages initialize_mem).getD (i + 1) 0) ∧
      (∀ a, a ≠ 64 + 0 →
        (∀ i, i + 1 < (free_pages initialize_mem).length →
          a ≠ (free_pages initialize_mem).getD 0 0 * 256 + i) →
        (∀ i, i < (free_pages initialize_mem).length →
          a ≠ (free_pages initialize_mem).getD i 0) →
        s'.mem a = initialize_mem.mem a)) ∧
    (new_process 0 64 initialize_mem).map
      (fun s' => (s'.mem 64, (List.range 62).map (fun i => s'.mem (256 + i)), s'.out)) =
      some (1, (List.range 62).map (fun i => i + 2), [Line.oom_data_page 0]) :=
  ⟨⟨by decide, by decide, by decide, by decide⟩,
    new_process_out_of_pages initialize_mem 0 64 (by decide) (by decide) (by decide) (by decide)⟩

/-! ## Claims about translation -/

/-- C2: for a process id `p` in `[0,64)` and a virtual address `v` in
`[0,16384)` such that the page-table page `t = mem[64+p]` satisfies
`1 <= t < 64` and the entry `pp = mem[t*256 + (v >> 8)]` is nonzero,
`vert_to_phys(p, v)` returns `pp * 256 + (v & 255)`. The function only reads
the state: its embedding has no state among its results, and `load_value`,
which adds a read of `mem` to it, returns with memory as it was. -/
theorem vert_to_phys_mapped (s : State) (p v : Nat) (hp : p < 64) (hv : v < 16384)
    (_ht1 : 1 ≤ s.mem (64 + p)) (ht : s.mem (64 + p) < 64)
    (_hpp : s.mem (s.mem (64 + p) * 256 + (v >>> 8)) ≠ 0) :
    vert_to_phys (p : Int) (v : Int) s =
      some ((s.mem (s.mem (64 + p) * 256 + (v >>> 8)) * 256 + (v &&& 255) : Nat) : Int) ∧
    ∀ s', load_value (p : Int) (v : Int) s = some s' → s'.mem = s.mem := by
  have h1 : v >>> 8 = v / 256 := Nat.shiftRight_eq_div_pow v 8
  have h2 : v &&& 255 = v % 256 := Nat.and_pow_two_sub_one_eq_mod v 8
  refine ⟨?_, ?_⟩
  · rw [h1, h2]
    exact vert_to_phys_nat s p v hp hv ht
  · intro s' hs'
    unfold load_value at hs'
    rw [vert_to_phys_nat s p v hp hv ht] at hs'
    simp only [Option.some_bind] at hs'
    cases hl : load s ((s.mem (s.mem (64 + p) * 256 + v / 256) * 256 + v % 256 : Nat) : Int) with
    | none => rw [hl] at hs'; simp at hs'
    | some x =>
      rw [hl] at hs'
      simp only [Option.some_bind, Option.some.injEq] at hs'
      rw [← hs']

/-- Witness of C2: process 0 with page table 1 whose entry 0 is page 2, address 5. -/
theorem vert_to_phys_mapped_witness :
    vert_to_phys ((0 : Nat) : Int) ((5 : Nat) : Int)
        (State.mk (write (write (fun _ => 0) 64 1) 256 2) 0 []) =
      some ((((State.mk (write (write (fun _ => 0) 64 1) 256 2) 0 []).mem
        ((State.mk (write (write (fun _ => 0) 64 1) 256 2) 0 []).mem (64 + 0) * 256 + (5 >>> 8))
          * 256 + (5 &&& 255) : Nat)) : Int) ∧
    ∀ s', load_value ((0 : Nat) : Int) ((5 : Nat) : Int)
        (State.mk (write (write (fun _ => 0) 64 1) 256 2) 0 []) = some s' →
      s'.mem = (State.mk (write (write (fun _ => 0) 64 1) 256 2) 0 []).mem :=
  vert_to_phys_mapped (State.mk (write (write (fun _ => 0) 64 1) 256 2) 0 []) 0 5
    (by decide) (by decide) (by decide) (by decide) (by decide)

/-- C3, as stated, fails: on freshly initialised memory process 0 has no page
table (`mem[64] == 0`) and the entry read for virtual address 256 is 0, yet
`store_value(0, 256, 7)` returns as for any translation, prints the usual line
with physical address 0 and overwrites `mem[0]` (1 before, 7 after);
`load_value(0, 256)` likewise prints the usual line. -/
theorem store_value_unmapped_counterexample :
    initialize_mem.mem (64 + 0) = 0 ∧ page_entry 0 256 initialize_mem = some 0 ∧
    initialize_mem.mem 0 = 1 ∧
    (store_value 0 256 7 initialize_mem).map (fun s' => (s'.mem 0, s'.out)) =
      some (7, [Line.store_line 0 256 0 7]) ∧
    (load_value 0 256 initialize_mem).map (fun s' => s'.out) =
      some [Line.store_line 0 256 0 1] := by
  decide

/-- C3, amended: for a process id `p` in `[0,64)` and a virtual address `v` in
`[0,16384)`, with `t = mem[64+p] < 64` and `e = mem[t*256 + v/256] < 64`, when
the process has no page table (`t == 0`) or `e == 0`, no fault is signalled:
`store_value` and `load_value` return as for any translation, with the physical
address `a = e*256 + v%256`, which is `v%256` (inside page 0) when `e == 0`,
and where `e` is the free-map byte `mem[v/256]` when `t == 0`. `store_value`
sets `mem[a]` to the value modulo 256, changes no other byte and prints the
usual line; `load_value` changes no memory and prints the usual line with
`mem[a]`. -/
theorem store_load_unmapped (s : State) (p v : Nat) (x : Int) (hp : p < 64)
    (hv : v < 16384) (ht : s.mem (64 + p) < 64)
    (he : s.mem (s.mem (64 + p) * 256 + v / 256) < 64)
    (_h : s.mem (64 + p) = 0 ∨ s.mem (s.mem (64 + p) * 256 + v / 256) = 0) :
    ∃ a : Nat, a = s.mem (s.mem (64 + p) * 256 + v / 256) * 256 + v % 256 ∧
      (s.mem (s.mem (64 + p) * 256 + v / 256) = 0 → a = v % 256) ∧
      (s.mem (64 + p) = 0 → a = s.mem (v / 256) * 256 + v % 256) ∧
      store_value (p : Int) (v : Int) x s =
        some { mem := write s.mem a (toByte x)
               allocated_pages := s.allocated_pages
               out := s.out ++ [Line.store_line (p : Int) (v : Int) (a : Int) x] } ∧
      load_value (p : Int) (v : Int) s =
        some { mem := s.mem
               allocated_pages := s.allocated_pages
               out := s.out ++
                 [Line.store_line (p : Int) (v : Int) (a : Int) ((s.mem a : Nat) : Int)] } :=
  ⟨_, rfl, fun e => by rw [e]; omega, fun e => by rw [e, Nat.zero_mul, Nat.zero_add],
    store_value_nat s p v x hp hv ht he, load_value_nat s p v hp hv ht he⟩

/-- Witness of the amended C3: freshly initialised memory, process 0, address 256. -/
theorem store_load_unmapped_witness :
    (initialize_mem.mem (64 + 0) < 64 ∧
      initialize_mem.mem (initialize_mem.mem (64 + 0) * 256 + 256 / 256) < 64 ∧
      (initialize_mem.mem (64 + 0) = 0 ∨
        initialize_mem.mem (initialize_mem.mem (64 + 0) * 256 + 256 / 256) = 0)) ∧
    ∃ a : Nat,
      a = initialize_mem.mem (initialize_mem.mem (64 + 0) * 256 + 256 / 256) * 256 + 256 % 256 ∧
      (initialize_mem.mem (initialize_mem.mem (64 + 0) * 256 + 256 / 256) = 0 → a = 256 % 256) ∧
      (initialize_mem.mem (64 + 0) = 0 → a = initialize_mem.mem (256 / 256) * 256 + 256 % 256) ∧
      store_value ((0 : Nat) : Int) ((256 : Nat) : Int) 7 initialize_mem =
        some { mem := write initialize_mem.mem a (toByte 7)
               allocated_pages := initialize_mem.allocated_pages
               out := initialize_mem.out ++
                 [Line.store_line ((0 : Nat) : Int) ((256 : Nat) : Int) (a : Int) 7] } ∧
      load_value ((0 : Nat) : Int) ((256 : Nat) : Int) initialize_mem =
        some { mem := initialize_mem.mem
               allocated_pages := initialize_mem.allocated_pages
               out := initialize_mem.out ++
                 [Line.store_line ((0 : Nat) : Int) ((256 : Nat) : Int) (a : Int)
                   ((initialize_mem.mem a : Nat) : Int)] } :=
  ⟨⟨by decide, by decide, Or.inl (by decide)⟩,
    store_load_unmapped initialize_mem 0 256 7 (by decide) (by decide) (by decide)
      (by decide) (Or.inl (by decide))⟩

/-- C4: for a process id `p` in `[0,64)` and `n >= 1` such that
`new_process(p, n)` on freshly initialised memory succeeds (returns without an
out-of-memory line), every virtual address `v < n*256` and byte `x <= 255`:
`store_value(p, v, x)` followed by `load_value(p, v)` loads `x`, and both
compute the same physical address (it is `v + 512`): the two printed lines carry
that address and the value `x`. -/
theorem store_load_round_trip (p n v x : Nat) (hp : p < 64) (_hn : 1 ≤ n)
    (hok : (new_process (p : Int) (n : Int) initialize_mem).map State.out = some [])
    (hv : v < n * 256) (hx : x ≤ 255) :
    ∃ s s2 s3, new_process (p : Int) (n : Int) initialize_mem = some s ∧
      store_value (p : Int) (v : Int) (x : Int) s = some s2 ∧
      load_value (p : Int) (v : Int) s2 = some s3 ∧
      vert_to_phys (p : Int) (v : Int) s = some ((v + 512 : Nat) : Int) ∧
      vert_to_phys (p : Int) (v : Int) s2 = some ((v + 512 : Nat) : Int) ∧
      s2.mem (v + 512) = x ∧
      s2.out = [Line.store_line (p : Int) (v : Int) ((v + 512 : Nat) : Int) (x : Int)] ∧
      s3.out = [Line.store_line (p : Int) (v : Int) ((v + 512 : Nat) : Int) (x : Int),
        Line.store_line (p : Int) (v : Int) ((v + 512 : Nat) : Int) (x : Int)] := by
  obtain ⟨hn62, s, e1, eout, ept, eent⟩ := new_process_fresh p n hp hok
  have hv' : v < 16384 := by omega
  have hvn : v / 256 < n := by omega
  have hE : s.mem (s.mem (64 + p) * 256 + v / 256) = v / 256 + 2 := by
    rw [ept, Nat.one_mul]
    exact eent _ hvn
  have hphys : s.mem (s.mem (64 + p) * 256 + v / 256) * 256 + v % 256 = v + 512 := by
    rw [hE]
    omega
  have hst := store_value_nat s p v (x : Int) hp hv' (by omega) (by omega)
  have hvp := vert_to_phys_nat s p v hp hv' (by omega)
  rw [hphys, toByte_nat x (by omega), eout, List.nil_append] at hst
  rw [hphys] at hvp
  let s2 : State :=
    { mem := write s.mem (v + 512) x
      allocated_pages := s.allocated_pages
      out := [Line.store_line (p : Int) (v : Int) ((v + 512 : Nat) : Int) (x : Int)] }
  have hs2 : s2.mem = write s.mem (v + 512) x := rfl
  have ept2 : s2.mem (64 + p) = 1 := by
    rw [hs2, write_other _ _ _ _ (by omega)]
    exact ept
  have hE2 : s2.mem (s2.mem (64 + p) * 256 + v / 256) = v / 256 + 2 := by
    rw [ept2, Nat.one_mul, hs2, write_other _ _ _ _ (by omega)]
    exact eent _ hvn
  have hphys2 : s2.mem (s2.mem (64 + p) * 256 + v / 256) * 256 + v % 256 = v + 512 := by
    rw [hE2]
    omega
  have hval : s2.mem (v + 512) = x := by
    rw [hs2]
    exact write_same s.mem (v + 512) x
  have hld := load_value_nat s2 p v hp hv' (by omega) (by omega)
  have hvp2 := vert_to_phys_nat s2 p v hp hv' (by omega)
  rw [hphys2, hval] at hld
  rw [hphys2] at hvp2
  exact ⟨s, s2, _, e1, hst, hld, hvp, hvp2, hval, rfl, rfl⟩

/-- Witness of C4: `np 0 2`, `sb 0 0 42`, `lb 0 0`. -/
theorem store_load_round_trip_witness :
    (0 < 64 ∧ 1 ≤ 2 ∧
      (new_process ((0 : Nat) : Int) ((2 : Nat) : Int) initialize_mem).map State.out = some [] ∧
      0 < 2 * 256 ∧ 42 ≤ 255) ∧
    ∃ s s2 s3, new_process ((0 : Nat) : Int) ((2 : Nat) : Int) initialize_mem = some s ∧
      store_value ((0 : Nat) : Int) ((0 : Nat) : Int) ((42 : Nat) : Int) s = some s2 ∧
      load_value ((0 : Nat) : Int) ((0 : Nat) : Int) s2 = some s3 ∧
      vert_to_phys ((0 : Nat) : Int) ((0 : Nat) : Int) s = some ((0 + 512 : Nat) : Int) ∧
      vert_to_phys ((0 : Nat) : Int) ((0 : Nat) : Int) s2 = some ((0 + 512 : Nat) : Int) ∧
      s2.mem (0 + 512) = 42 ∧
      s2.out = [Line.store_line ((0 : Nat) : Int) ((0 : Nat) : Int) ((0 + 512 : Nat) : Int)
        ((42 : Nat) : Int)] ∧
      s3.out = [Line.store_line ((0 : Nat) : Int) ((0 : Nat) : Int) ((0 + 512 : Nat) : Int)
          ((42 : Nat) : Int),
        Line.store_line ((0 : Nat) : Int) ((0 : Nat) : Int) ((0 + 512 : Nat) : Int)
          ((42 : Nat) : Int)] :=
  ⟨⟨by decide, by decide, by decide, by decide, by decide⟩,
    store_load_round_trip 0 2 0 42 (by decide) (by decide) (by decide) (by decide)
      (by decide)⟩

/-! ## Claims about `kill_process` and page 0 -/

/-- C6: in the state reached from freshly initialised memory by `new_process`
calls `cs` on pairwise distinct process ids in `[0,64)` (the calls all
return), for a process `p` among them that received a page table
(`mem[64+p] != 0`): `kill_process(p)` returns, and afterwards the free-map byte
of the page-table page of `p` and of every page that was a nonzero entry of
that page table (any of its 256 bytes) is 0, and the PTPT entry `mem[64+p]` is
0. In particular init, `new_process(1,1)`, `kill_process(1)` leaves only page 0
marked used. -/
theorem kill_process_teardown (cs : List (Nat × Int)) (p : Nat)
    (hids : ∀ c ∈ cs, c.1 < 64) (_hnd : (cs.map Prod.fst).Nodup)
    (hp : p ∈ cs.map Prod.fst) :
    (∃ s, run_new cs initialize_mem = some s ∧
      (s.mem (64 + p) ≠ 0 →
        ∃ s', kill_process (p : Int) s = some s' ∧
          s'.mem (s.mem (64 + p)) = 0 ∧
          (∀ i, i < 256 → s.mem (s.mem (64 + p) * 256 + i) ≠ 0 →
            s'.mem (s.mem (s.mem (64 + p) * 256 + i)) = 0) ∧
          s'.mem (64 + p) = 0)) ∧
    ((new_process 1 1 initialize_mem).bind (kill_process 1)).map
      (fun s => (List.range 64).filter fun i => s.mem i ≠ 0) = some [0] := by
  refine ⟨?_, scenario_np_kp⟩
  obtain ⟨s, e1, _, hb, hc⟩ := run_new_fresh_inv cs initialize_mem hids fresh_inv_initialize_mem
  have hp64 : p < 64 := by
    obtain ⟨c, hc1, hc2⟩ := List.mem_map.1 hp
    rw [← hc2]
    exact hids c hc1
  refine ⟨s, e1, fun ht => ?_⟩
  obtain ⟨s', k1, _, k3, k4, k5, _⟩ := kill_process_spec s p hp64 (by omega) (hb _)
    (fun j _ => by have := hb (s.mem (64 + p) * 256 + j); omega)
  refine ⟨s', k1, k3, ?_, k4⟩
  intro i hi hne
  have hi64 : i < 64 := by
    by_contra hge
    have ht1 : 1 ≤ s.mem (64 + p) := by omega
    exact hne (hc _ (by nlinarith) (by omega))
  exact k5 i hi64 hne

/-- Witness of C6: the single call `new_process(1, 1)`, after which process 1 has
page table 1, then `kill_process(1)`. -/
theorem kill_process_teardown_witness :
    ((∀ c ∈ [((1 : Nat), (1 : Int))], c.1 < 64) ∧
      ([((1 : Nat), (1 : Int))].map Prod.fst).Nodup ∧
      1 ∈ [((1 : Nat), (1 : Int))].map Prod.fst ∧
      (run_new [((1 : Nat), (1 : Int))] initialize_mem).map (fun s => s.mem (64 + 1)) =
        some 1) ∧
    (∃ s, run_new [((1 : Nat), (1 : Int))] initialize_mem = some s ∧
      (s.mem (64 + 1) ≠ 0 →
        ∃ s', kill_process ((1 : Nat) : Int) s = some s' ∧
          s'.mem (s.mem (64 + 1)) = 0 ∧
          (∀ i, i < 256 → s.mem (s.mem (64 + 1) * 256 + i) ≠ 0 →
            s'.mem (s.mem (s.mem (64 + 1) * 256 + i)) = 0) ∧
          s'.mem (64 + 1) = 0)) ∧
    ((new_process 1 1 initialize_mem).bind (kill_process 1)).map
      (fun s => (List.range 64).filter fun i => s.mem i ≠ 0) = some [0] :=
  ⟨⟨by decide, by decide, by decide, by decide⟩,
    kill_process_teardown [((1 : Nat), (1 : Int))] 1 (by decide) (by decide) (by decide)⟩

/-- C7, evaluated at its failing input: on freshly initialised memory process 0
has no page table (`mem[64] == 0`) and page 0 is allocated (`mem[0] == 1`);
`kill_process(0)` returns with `mem[0] == 0`, so that the next
`allocate_a_page` returns page 0. -/
theorem kill_process_unassigned_frees_page_zero :
    initialize_mem.mem (64 + 0) = 0 ∧ initialize_mem.mem 0 = 1 ∧
    (kill_process 0 initialize_mem).map (fun s => (s.mem 0, (allocate_a_page s).1)) =
      some (0, 0) := by
  decide

/-- C8, as stated, fails: the single call `store_value(0, 256, 0)` on freshly
initialised memory, with process id 0 in `[0,64)`, leaves `mem[0] == 0`, and
`allocate_a_page` then returns page 0. -/
theorem store_value_clears_page_zero :
    (∀ c ∈ [Cmd.sb 0 256 0], c.pid < 64) ∧
    (run [Cmd.sb 0 256 0] initialize_mem).map (fun s => (s.mem 0, (allocate_a_page s).1)) =
      some (0, 0) := by
  decide

/-- C8, amended: in every state reached from `initialize_mem` by a finite
sequence of `new_process`, `load_value`, `kill_process` calls on a process whose
PTPT entry is nonzero and `store_value` calls at an address whose page-table
entry is nonzero, with process ids in `[0,64)`, the free-map byte `mem[0]` is
nonzero, and `allocate_a_page` does not return page 0. -/
theorem page_zero_reserved (cs : List Cmd) (s : State) (hpid : ∀ c ∈ cs, c.pid < 64)
    (hg : all_address_mappings cs initialize_mem = true)
    (hs : run cs initialize_mem = some s) :
    s.mem 0 ≠ 0 ∧ (allocate_a_page s).1 ≠ 0 :=
  have h0 := run_mem_zero cs initialize_mem s hpid hg (by decide) hs
  ⟨h0, allocate_a_page_ne_zero s h0⟩

/-- Witness of the amended C8: `np 0 2`, `sb 0 0 42`, `lb 0 0`, `kp 0`. -/
theorem page_zero_reserved_witness :
    (∀ c ∈ [Cmd.np 0 2, Cmd.sb 0 0 42, Cmd.lb 0 0, Cmd.kp 0], c.pid < 64) ∧
    all_address_mappings [Cmd.np 0 2, Cmd.sb 0 0 42, Cmd.lb 0 0, Cmd.kp 0] initialize_mem
      = true ∧
    ∃ s, run [Cmd.np 0 2, Cmd.sb 0 0 42, Cmd.lb 0 0, Cmd.kp 0] initialize_mem = some s ∧
      s.mem 0 ≠ 0 ∧ (allocate_a_page s).1 ≠ 0 :=
  have hsome : (run [Cmd.np 0 2, Cmd.sb 0 0 42, Cmd.lb 0 0, Cmd.kp 0] initialize_mem).isSome
      = true := by decide
  ⟨by decide, by decide, Option.get _ hsome, (Option.some_get hsome).symm,
    page_zero_reserved [Cmd.np 0 2, Cmd.sb 0 0 42, Cmd.lb 0 0, Cmd.kp 0] _ (by decide)
      (by decide) (Option.some_get hsome).symm⟩

/-! ## Claims about out-of-memory, addresses and the frame of `store_value` -/

/-- C11: when every free-map byte `mem[0..63]` is nonzero, `new_process(p, n)`
for a process id `p` in `[0,64)` and any `n` prints the page-table
out-of-memory line and leaves memory unchanged; a PTPT entry `mem[64+p]` that
was 0 stays 0. -/
theorem new_process_no_page (s : State) (p : Nat) (n : Int) (_hp : p < 64)
    (hfull : ∀ i, i < 64 → s.mem i ≠ 0) :
    ∃ s', new_process (p : Int) n s = some s' ∧
      s'.out = s.out ++ [Line.oom_page_table (p : Int)] ∧
      s'.mem = s.mem ∧ (s.mem (64 + p) = 0 → s'.mem (64 + p) = 0) := by
  have hfs : free_pages s = [] := by
    cases h : free_pages s with
    | nil => rfl
    | cons f rest =>
      have hm : f ∈ free_pages s := by rw [h]; exact List.mem_cons_self _ _
      exact absurd ((mem_free_pages s f).1 hm).2 (hfull f ((mem_free_pages s f).1 hm).1)
  exact ⟨_, new_process_nil _ _ s hfs, rfl, rfl, fun h => h⟩

/-- Witness of C11: the free map full, the rest of memory zero, `new_process(3, 2)`. -/
theorem new_process_no_page_witness :
    (3 < 64 ∧ ∀ i, i < 64 → (State.mk (fun a => if a < 64 then 1 else 0) 0 []).mem i ≠ 0) ∧
    ∃ s', new_process ((3 : Nat) : Int) 2 (State.mk (fun a => if a < 64 then 1 else 0) 0 []) =
        some s' ∧
      s'.out = (State.mk (fun a => if a < 64 then 1 else 0) 0 []).out ++
        [Line.oom_page_table ((3 : Nat) : Int)] ∧
      s'.mem = (State.mk (fun a => if a < 64 then 1 else 0) 0 []).mem ∧
      ((State.mk (fun a => if a < 64 then 1 else 0) 0 []).mem (64 + 3) = 0 →
        s'.mem (64 + 3) = 0) :=
  ⟨⟨by decide, by decide⟩,
    new_process_no_page (State.mk (fun a => if a < 64 then 1 else 0) 0 []) 3 2 (by decide)
      (by decide)⟩

/-- C20: for a page in `[0,64)` and an offset in `[0,256)`,
`get_address(page, offset) == page * 256 + offset`, the result lies in
`[0, MEM_SIZE)`, and `get_address(a / 256, a % 256) == a` for every address `a`
in `[0, MEM_SIZE)`. -/
theorem get_address_page_offset (page offset a : Nat) (hp : page < 64) (ho : offset < 256)
    (_ha : a < MEM_SIZE) :
    get_address (page : Int) (offset : Int) = (page : Int) * 256 + (offset : Int) ∧
    0 ≤ get_address (page : Int) (offset : Int) ∧
    get_address (page : Int) (offset : Int) < (MEM_SIZE : Int) ∧
    get_address ((a / 256 : Nat) : Int) ((a % 256 : Nat) : Int) = (a : Int) := by
  have hM : ((MEM_SIZE : Nat) : Int) = 16384 := rfl
  rw [get_address_nat page offset ho, get_address_nat (a / 256) (a % 256) (by omega), hM]
  refine ⟨by push_cast; rfl, by omega, by omega, ?_⟩
  congr 1
  omega

/-- Witness of C20: page 63, offset 255 and address 16383. -/
theorem get_address_page_offset_witness :
    (63 < 64 ∧ 255 < 256 ∧ 16383 < MEM_SIZE) ∧
    get_address ((63 : Nat) : Int) ((255 : Nat) : Int) =
      ((63 : Nat) : Int) * 256 + ((255 : Nat) : Int) ∧
    0 ≤ get_address ((63 : Nat) : Int) ((255 : Nat) : Int) ∧
    get_address ((63 : Nat) : Int) ((255 : Nat) : Int) < (MEM_SIZE : Int) ∧
    get_address ((16383 / 256 : Nat) : Int) ((16383 % 256 : Nat) : Int) = ((16383 : Nat) : Int) :=
  ⟨⟨by decide, by decide, by decide⟩,
    get_address_page_offset 63 255 16383 (by decide) (by decide) (by decide)⟩

/-- C19: for a process id `p` in `[0,64)` and a virtual address `v` in
`[0,16384)` such that the PTPT entry `t = mem[64+p]` is below 64 and the
page-table entry `mem[t*256 + v/256]` is below 64, every index at which
`vert_to_phys`, `store_value` and `load_value` access `mem` lies in
`[0, MEM_SIZE)`: the PTPT address, the page-table-entry address and the
returned physical address; accordingly the three functions return. -/
theorem translation_in_bounds (s : State) (p v : Nat) (x : Int) (hp : p < 64)
    (hv : v < 16384) (ht : s.mem (64 + p) < 64)
    (he : s.mem (s.mem (64 + p) * 256 + v / 256) < 64) :
    (0 ≤ get_address 0 ((PTP_OFFSET : Int) + (p : Int)) ∧
      get_address 0 ((PTP_OFFSET : Int) + (p : Int)) < (MEM_SIZE : Int)) ∧
    (0 ≤ get_address ((s.mem (64 + p) : Nat) : Int) (Int.tdiv (v : Int) (PAGE_SIZE : Int)) ∧
      get_address ((s.mem (64 + p) : Nat) : Int) (Int.tdiv (v : Int) (PAGE_SIZE : Int)) <
        (MEM_SIZE : Int)) ∧
    (∃ a : Int, vert_to_phys (p : Int) (v : Int) s = some a ∧ 0 ≤ a ∧ a < (MEM_SIZE : Int)) ∧
    (store_value (p : Int) (v : Int) x s).isSome = true ∧
    (load_value (p : Int) (v : Int) s).isSome = true := by
  have hM : ((MEM_SIZE : Nat) : Int) = 16384 := rfl
  have h1 : get_address 0 ((PTP_OFFSET : Int) + (p : Int)) = ((0 * 256 + (64 + p) : Nat) : Int) := by
    rw [ptp_nat]
    exact get_address_nat 0 (64 + p) (by omega)
  rw [h1, tdiv_nat, get_address_nat _ _ (by omega), hM, vert_to_phys_nat s p v hp hv ht,
    store_value_nat s p v x hp hv ht he, load_value_nat s p v hp hv ht he]
  exact ⟨⟨by omega, by omega⟩, ⟨by omega, by omega⟩, ⟨_, rfl, by omega, by omega⟩, rfl, rfl⟩

/-- Witness of C19: freshly initialised memory, process 0, address 256. -/
theorem translation_in_bounds_witness :
    (0 < 64 ∧ 256 < 16384 ∧ initialize_mem.mem (64 + 0) < 64 ∧
      initialize_mem.mem (initialize_mem.mem (64 + 0) * 256 + 256 / 256) < 64) ∧
    (0 ≤ get_address 0 ((PTP_OFFSET : Int) + ((0 : Nat) : Int)) ∧
      get_address 0 ((PTP_OFFSET : Int) + ((0 : Nat) : Int)) < (MEM_SIZE : Int)) ∧
    (0 ≤ get_address ((initialize_mem.mem (64 + 0) : Nat) : Int)
        (Int.tdiv ((256 : Nat) : Int) (PAGE_SIZE : Int)) ∧
      get_address ((initialize_mem.mem (64 + 0) : Nat) : Int)
        (Int.tdiv ((256 : Nat) : Int) (PAGE_SIZE : Int)) < (MEM_SIZE : Int)) ∧
    (∃ a : Int, vert_to_phys ((0 : Nat) : Int) ((256 : Nat) : Int) initialize_mem = some a ∧
      0 ≤ a ∧ a < (MEM_SIZE : Int)) ∧
    (store_value ((0 : Nat) : Int) ((256 : Nat) : Int) 7 initialize_mem).isSome = true ∧
    (load_value ((0 : Nat) : Int) ((256 : Nat) : Int) initialize_mem).isSome = true :=
  ⟨⟨by decide, by decide, by decide, by decide⟩,
    translation_in_bounds initialize_mem 0 256 7 (by decide) (by decide) (by decide)
      (by decide)⟩

/-- C16: for a non-negative 32-bit `int` virtual address `v`, the division and
remainder used by `vert_to_phys` agree with the shift and mask:
`v / PAGE_SIZE == v >> PAGE_SHIFT` and `v % PAGE_SIZE == v & (PAGE_SIZE - 1)`,
with `PAGE_SIZE = 256` and `PAGE_SHIFT = 8`; hence `vert_to_phys` and the
translation written with shift and mask return the same. -/
theorem div_mod_agree_with_shift_mask (v : Int) (h0 : 0 ≤ v) (_h1 : v < 2 ^ 31) :
    PAGE_SIZE = 256 ∧ PAGE_SHIFT = 8 ∧
    Int.tdiv v (PAGE_SIZE : Int) = v >>> PAGE_SHIFT ∧
    Int.tmod v (PAGE_SIZE : Int) = Int.land v ((PAGE_SIZE : Int) - 1) ∧
    ∀ (p : Int) (s : State), vert_to_phys p v s = vert_to_phys_shift p v s := by
  obtain ⟨m, rfl⟩ := Int.eq_ofNat_of_zero_le h0
  have hd : Int.tdiv (m : Int) (PAGE_SIZE : Int) = (m : Int) >>> PAGE_SHIFT := by
    rw [tdiv_nat]
    show ((m / 256 : Nat) : Int) = ((m >>> 8 : Nat) : Int)
    rw [Nat.shiftRight_eq_div_pow]
  have hm : Int.tmod (m : Int) (PAGE_SIZE : Int) = Int.land (m : Int) ((PAGE_SIZE : Int) - 1) := by
    rw [tmod_nat]
    show ((m % 256 : Nat) : Int) = ((m &&& 255 : Nat) : Int)
    rw [show (255 : Nat) = 2 ^ 8 - 1 from rfl, Nat.and_pow_two_sub_one_eq_mod]
  refine ⟨rfl, rfl, hd, hm, fun p s => ?_⟩
  unfold vert_to_phys vert_to_phys_shift
  rw [hd, hm]

/-- Witness of C16: the address 1000. -/
theorem div_mod_agree_with_shift_mask_witness :
    ((0 : Int) ≤ 1000 ∧ (1000 : Int) < 2 ^ 31) ∧
    PAGE_SIZE = 256 ∧ PAGE_SHIFT = 8 ∧
    Int.tdiv 1000 (PAGE_SIZE : Int) = (1000 : Int) >>> PAGE_SHIFT ∧
    Int.tmod 1000 (PAGE_SIZE : Int) = Int.land 1000 ((PAGE_SIZE : Int) - 1) ∧
    ∀ (p : Int) (s : State), vert_to_phys p 1000 s = vert_to_phys_shift p 1000 s :=
  ⟨⟨by decide, by decide⟩, div_mod_agree_with_shift_mask 1000 (by decide) (by decide)⟩

/-- C14: for every `int` value `x` (above 255 and negative values included), a
process id `p` in `[0,64)` and a virtual address `v` in `[0,16384)` whose page
is mapped (page table `t < 64`, entry `1 <= e < 64`), after
`store_value(p, v, x)` the byte at the translated physical address
`e*256 + v%256` is `x` modulo 256, taken in `[0,255]`. For example, through
`np 0 1` and `sb 0 0 _`, 300 is stored as 44 and -1 as 255. -/
theorem store_value_wraps (s : State) (p v : Nat) (x : Int) (hp : p < 64) (hv : v < 16384)
    (ht : s.mem (64 + p) < 64)
    (_he1 : 1 ≤ s.mem (s.mem (64 + p) * 256 + v / 256))
    (he : s.mem (s.mem (64 + p) * 256 + v / 256) < 64) :
    (∃ s', store_value (p : Int) (v : Int) x s = some s' ∧
      ((s'.mem (s.mem (s.mem (64 + p) * 256 + v / 256) * 256 + v % 256) : Nat) : Int) = x % 256 ∧
      s'.mem (s.mem (s.mem (64 + p) * 256 + v / 256) * 256 + v % 256) ≤ 255) ∧
    ((new_process 0 1 initialize_mem).bind (store_value 0 0 300)).map (fun s' => s'.mem 512) =
      some 44 ∧
    ((new_process 0 1 initialize_mem).bind (store_value 0 0 (-1))).map (fun s' => s'.mem 512) =
      some 255 := by
  refine ⟨⟨_, store_value_nat s p v x hp hv ht he, ?_, ?_⟩, by decide, by decide⟩
  · show ((write s.mem _ (toByte x) _ : Nat) : Int) = x % 256
    rw [write_same]
    unfold toByte
    omega
  · show write s.mem _ (toByte x) _ ≤ 255
    rw [write_same]
    unfold toByte
    omega

/-- Witness of C14: process 0 with page table 1 whose entry 0 is page 2, address 5,
value 300. -/
theorem store_value_wraps_witness :
    (0 < 64 ∧ 5 < 16384 ∧
      (State.mk (write (write (fun _ => 0) 64 1) 256 2) 0 []).mem (64 + 0) < 64 ∧
      1 ≤ (State.mk (write (write (fun _ => 0) 64 1) 256 2) 0 []).mem
        ((State.mk (write (write (fun _ => 0) 64 1) 256 2) 0 []).mem (64 + 0) * 256 + 5 / 256) ∧
      (State.mk (write (write (fun _ => 0) 64 1) 256 2) 0 []).mem
        ((State.mk (write (write (fun _ => 0) 64 1) 256 2) 0 []).mem (64 + 0) * 256 + 5 / 256)
          < 64) ∧
    (∃ s', store_value ((0 : Nat) : Int) ((5 : Nat) : Int) 300
        (State.mk (write (write (fun _ => 0) 64 1) 256 2) 0 []) = some s' ∧
      ((s'.mem ((State.mk (write (write (fun _ => 0) 64 1) 256 2) 0 []).mem
        ((State.mk (write (write (fun _ => 0) 64 1) 256 2) 0 []).mem (64 + 0) * 256 + 5 / 256)
          * 256 + 5 % 256) : Nat) : Int) = 300 % 256 ∧
      s'.mem ((State.mk (write (write (fun _ => 0) 64 1) 256 2) 0 []).mem
        ((State.mk (write (write (fun _ => 0) 64 1) 256 2) 0 []).mem (64 + 0) * 256 + 5 / 256)
          * 256 + 5 % 256) ≤ 255) ∧
    ((new_process 0 1 initialize_mem).bind (store_value 0 0 300)).map (fun s' => s'.mem 512) =
      some 44 ∧
    ((new_process 0 1 initialize_mem).bind (store_value 0 0 (-1))).map (fun s' => s'.mem 512) =
      some 255 :=
  ⟨⟨by decide, by decide, by decide, by decide, by decide⟩,
    store_value_wraps (State.mk (write (write (fun _ => 0) 64 1) 256 2) 0 []) 0 5 300
      (by decide) (by decide) (by decide) (by decide) (by decide)⟩

/-- C18: whenever the address `a = vert_to_phys(p, v)` lies in `[0, MEM_SIZE)`,
`store_value(p, v, x)` returns and changes at most the byte `mem[a]`; and when
`p` is a process created by a successful `new_process(p, n)` on freshly
initialised memory and the virtual page of `v` is mapped (`v < n*256`), then
`a >= 512`, so the free map `mem[0..63]`, the PTPT `mem[64..127]` and the
page-table page of `p` are unchanged. -/
theorem store_value_frame (s : State) (q w x : Int) (a : Nat) (p n v : Nat)
    (ha : a < MEM_SIZE) (hvp : vert_to_phys q w s = some (a : Int))
    (hp : p < 64)
    (hok : (new_process (p : Int) (n : Int) initialize_mem).map State.out = some [])
    (hv : v < n * 256) :
    (∃ s', store_value q w x s = some s' ∧ ∀ b, b ≠ a → s'.mem b = s.mem b) ∧
    (∃ s1 s2 : State, ∃ a1 : Nat, new_process (p : Int) (n : Int) initialize_mem = some s1 ∧
      vert_to_phys (p : Int) (v : Int) s1 = some (a1 : Int) ∧ 512 ≤ a1 ∧
      store_value (p : Int) (v : Int) x s1 = some s2 ∧
      (∀ i, i < 64 → s2.mem i = s1.mem i) ∧
      (∀ r, r < 64 → s2.mem (64 + r) = s1.mem (64 + r)) ∧
      (∀ i, i < 256 → s2.mem (s1.mem (64 + p) * 256 + i) = s1.mem (s1.mem (64 + p) * 256 + i))) := by
  constructor
  · refine ⟨State.mk (write s.mem a (toByte x)) s.allocated_pages
      (s.out ++ [Line.store_line q w (a : Int) x]), ?_, fun b hb => write_other _ _ _ _ hb⟩
    unfold store_value
    rw [hvp, Option.some_bind, store_nat s a x ha]
    rfl
  · obtain ⟨hn62, s1, e1, _, ept, eent⟩ := new_process_fresh p n hp hok
    have hv' : v < 16384 := by omega
    have hE : s1.mem (s1.mem (64 + p) * 256 + v / 256) = v / 256 + 2 := by
      rw [ept, Nat.one_mul]
      exact eent _ (by omega)
    have hphys : s1.mem (s1.mem (64 + p) * 256 + v / 256) * 256 + v % 256 = v + 512 := by
      rw [hE]
      omega
    have hst := store_value_nat s1 p v x hp hv' (by omega) (by omega)
    have hvp1 := vert_to_phys_nat s1 p v hp hv' (by omega)
    rw [hphys] at hst hvp1
    refine ⟨s1, _, v + 512, e1, hvp1, by omega, hst, ?_, ?_, ?_⟩
    · intro i hi
      exact write_other _ _ _ _ (by omega)
    · intro r hr
      exact write_other _ _ _ _ (by omega)
    · intro i hi
      rw [ept]
      exact write_other _ _ _ _ (by omega)

/-- Witness of C18: a store through a hand-built mapping, and `np 0 2`, `sb 0 0 42`. -/
theorem store_value_frame_witness :
    (517 < MEM_SIZE ∧
      vert_to_phys 0 5 (State.mk (write (write (fun _ => 0) 64 1) 256 2) 0 []) =
        some ((517 : Nat) : Int) ∧
      0 < 64 ∧
      (new_process ((0 : Nat) : Int) ((2 : Nat) : Int) initialize_mem).map State.out = some [] ∧
      0 < 2 * 256) ∧
    (∃ s', store_value 0 5 42 (State.mk (write (write (fun _ => 0) 64 1) 256 2) 0 []) = some s' ∧
      ∀ b, b ≠ 517 → s'.mem b = (State.mk (write (write (fun _ => 0) 64 1) 256 2) 0 []).mem b) ∧
    (∃ s1 s2 : State, ∃ a1 : Nat,
      new_process ((0 : Nat) : Int) ((2 : Nat) : Int) initialize_mem = some s1 ∧
      vert_to_phys ((0 : Nat) : Int) ((0 : Nat) : Int) s1 = some (a1 : Int) ∧ 512 ≤ a1 ∧
      store_value ((0 : Nat) : Int) ((0 : Nat) : Int) 42 s1 = some s2 ∧
      (∀ i, i < 64 → s2.mem i = s1.mem i) ∧
      (∀ r, r < 64 → s2.mem (64 + r) = s1.mem (64 + r)) ∧
      (∀ i, i < 256 → s2.mem (s1.mem (64 + 0) * 256 + i) = s1.mem (s1.mem (64 + 0) * 256 + i))) :=
  ⟨⟨by decide, by decide, by decide, by decide, by decide⟩,
    store_value_frame (State.mk (write (write (fun _ => 0) 64 1) 256 2) 0 []) 0 5 42 517 0 2 0
      (by decide) (by decide) (by decide) (by decide) (by decide)⟩

/-! ## Claims about process ids outside `[0,64)` -/

/-- C13, as stated, fails: with process id 64, outside `[0,64)`,
`new_process(64, 1)` on freshly initialised memory marks page 1 used and writes
1 to `mem[128]`; after it `kill_process(64)` clears `mem[1]` and `mem[128]`,
and `store_value(64, 0, 7)` writes 7 to `mem[512]`. None of the calls is
rejected. -/
theorem process_id_unchecked_counterexample :
    (initialize_mem.mem 1 = 0 ∧ initialize_mem.mem 128 = 0 ∧
      (new_process 64 1 initialize_mem).map (fun s => (s.mem 1, s.mem 128, s.mem 512)) =
        some (1, 1, 0)) ∧
    ((new_process 64 1 initialize_mem).bind (kill_process 64)).map
      (fun s => (s.mem 1, s.mem 128)) = some (0, 0) ∧
    ((new_process 64 1 initialize_mem).bind (store_value 64 0 7)).map (fun s => s.mem 512) =
      some 7 := by
  decide

/-- C13, amended: a process id `p` with `64 <= p < 16320` is not rejected; the
byte `mem[64+p]`, beyond the PTPT, is used as the PTPT entry of `p`.
`get_page_table(p)` returns it. In a state with `mem[0] != 0` whose lowest free
page is `f0`, `new_process(p, n)` marks `f0` used and leaves `mem[64+p] == f0`
unless the data-page loop overwrites that byte as a page-table entry. When
`t = mem[64+p]` is a page in `1..63` holding bytes, `kill_process(p)` clears
`mem[t]`, `mem[64+p]` and the free-map bytes of the nonzero entries `0..63` of
`t`. When `t < 64` and the entry `e = mem[t*256 + v/256] < 64`,
`store_value(p, v, x)` sets `mem[e*256 + v%256]` to `x` modulo 256. -/
theorem process_id_unchecked (s : State) (p v : Nat) (n x : Int) (_hp : 64 ≤ p)
    (hp2 : p < 16320) :
    get_page_table (p : Int) s = some (s.mem (64 + p)) ∧
    (∀ f0 rest, s.mem 0 ≠ 0 → free_pages s = f0 :: rest →
      ∃ s', new_process (p : Int) n s = some s' ∧ s.mem f0 = 0 ∧ s'.mem f0 = 1 ∧
        ((∀ j, j < n.toNat → j < rest.length → 64 + p ≠ f0 * 256 + j) →
          s'.mem (64 + p) = f0)) ∧
    (1 ≤ s.mem (64 + p) → s.mem (64 + p) < 64 →
      (∀ j, j < 256 → s.mem (s.mem (64 + p) * 256 + j) < 256) →
      ∃ s', kill_process (p : Int) s = some s' ∧
        s'.mem (s.mem (64 + p)) = 0 ∧ s'.mem (64 + p) = 0 ∧
        (∀ j, j < 64 → s.mem (s.mem (64 + p) * 256 + j) ≠ 0 →
          s'.mem (s.mem (s.mem (64 + p) * 256 + j)) = 0)) ∧
    (v < 16384 → s.mem (64 + p) < 64 → s.mem (s.mem (64 + p) * 256 + v / 256) < 64 →
      ∃ s', store_value (p : Int) (v : Int) x s = some s' ∧
        s'.mem (s.mem (s.mem (64 + p) * 256 + v / 256) * 256 + v % 256) = toByte x) := by
  have hA : 64 + p < 16384 := by omega
  refine ⟨get_page_table_far s p hA, ?_, ?_, ?_⟩
  · intro f0 rest h0 hfs
    exact new_process_far s p n hA h0 f0 rest hfs
  · intro ht1 ht hb
    exact kill_process_far s p hA ht1 ht hb
  · intro hv ht he
    exact ⟨_, store_value_far s p v x hA hv ht he, write_same _ _ _⟩

/-- Witness of the amended C13: freshly initialised memory and process id 64. -/
theorem process_id_unchecked_witness :
    (64 ≤ 64 ∧ 64 < 16320) ∧
    get_page_table ((64 : Nat) : Int) initialize_mem = some (initialize_mem.mem (64 + 64)) ∧
    (∀ f0 rest, initialize_mem.mem 0 ≠ 0 → free_pages initialize_mem = f0 :: rest →
      ∃ s', new_process ((64 : Nat) : Int) 1 initialize_mem = some s' ∧
        initialize_mem.mem f0 = 0 ∧ s'.mem f0 = 1 ∧
        ((∀ j, j < (1 : Int).toNat → j < rest.length → 64 + 64 ≠ f0 * 256 + j) →
          s'.mem (64 + 64) = f0)) ∧
    (1 ≤ initialize_mem.mem (64 + 64) → initialize_mem.mem (64 + 64) < 64 →
      (∀ j, j < 256 → initialize_mem.mem (initialize_mem.mem (64 + 64) * 256 + j) < 256) →
      ∃ s', kill_process ((64 : Nat) : Int) initialize_mem = some s' ∧
        s'.mem (initialize_mem.mem (64 + 64)) = 0 ∧ s'.mem (64 + 64) = 0 ∧
        (∀ j, j < 64 → initialize_mem.mem (initialize_mem.mem (64 + 64) * 256 + j) ≠ 0 →
          s'.mem (initialize_mem.mem (initialize_mem.mem (64 + 64) * 256 + j)) = 0)) ∧
    (0 < 16384 → initialize_mem.mem (64 + 64) < 64 →
      initialize_mem.mem (initialize_mem.mem (64 + 64) * 256 + 0 / 256) < 64 →
      ∃ s', store_value ((64 : Nat) : Int) ((0 : Nat) : Int) 7 initialize_mem = some s' ∧
        s'.mem (initialize_mem.mem (initialize_mem.mem (64 + 64) * 256 + 0 / 256) * 256 + 0 % 256)
          = toByte 7) :=
  ⟨⟨by decide, by decide⟩, process_id_unchecked initialize_mem 64 0 1 7 (by decide) (by decide)⟩

/-! ## Ownership of pages and conservation -/

theorem list_sum_range (g : Nat → Nat) :
    ∀ n, ((List.range n).map g).sum = Finset.sum (Finset.range n) g := by
  intro n
  induction n with
  | zero => rfl
  | succ n ih =>
    rw [List.range_succ, List.map_append, List.sum_append, ih, Finset.sum_range_succ]
    simp

/-- In a state where every used page has exactly one owner, the number of used
pages is the number of page tables plus the number of their entries plus one. -/
theorem owned_conservation (s : State) (h : owned s) :
    used_count s = ptpt_count s + live_entry_count s + 1 := by
  obtain ⟨h0, hbyte, _⟩ := h.fresh
  let U : Finset Nat := (Finset.range 64).filter fun i => s.mem i ≠ 0
  let L : Finset Nat := (Finset.range 64).filter fun q => s.mem (64 + q) ≠ 0
  let I : Nat → Finset Nat := fun q =>
    (Finset.range 256).filter fun i => s.mem (s.mem (64 + q) * 256 + i) ≠ 0
  let T : Finset Nat := L.image fun q => s.mem (64 + q)
  let Sg : Finset (Σ _ : Nat, Nat) := L.sigma I
  let E : Finset Nat := Sg.image fun x => s.mem (s.mem (64 + x.1) * 256 + x.2)
  have hL : ∀ q, q ∈ L ↔ q < 64 ∧ s.mem (64 + q) ≠ 0 := fun q => by
    simp only [L, Finset.mem_filter, Finset.mem_range]
  have hI : ∀ q i, i ∈ I q ↔ i < 256 ∧ s.mem (s.mem (64 + q) * 256 + i) ≠ 0 := fun q i => by
    simp only [I, Finset.mem_filter, Finset.mem_range]
  have hSg : ∀ x : (Σ _ : Nat, Nat), x ∈ Sg ↔ x.1 ∈ L ∧ x.2 ∈ I x.1 := fun x =>
    Finset.mem_sigma
  have hUeq : U = insert 0 (T ∪ E) := by
    ext x
    simp only [U, Finset.mem_filter, Finset.mem_range, Finset.mem_insert, Finset.mem_union]
    constructor
    · rintro ⟨hx, hxu⟩
      by_cases hx0 : x = 0
      · exact Or.inl hx0
      · right
        obtain ⟨q, hq, hlive, hcase⟩ := h.owner x hx hx0 hxu
        rcases hcase with e | ⟨i, hi, e⟩
        · left
          exact Finset.mem_image.2 ⟨q, (hL q).2 ⟨hq, hlive⟩, e.symm⟩
        · right
          exact Finset.mem_image.2 ⟨⟨q, i⟩, (hSg _).2 ⟨(hL q).2 ⟨hq, hlive⟩,
            (hI q i).2 ⟨hi, by rw [e]; exact hx0⟩⟩, e⟩
    · rintro (e | hT | hE)
      · rw [e]
        exact ⟨by omega, h0⟩
      · obtain ⟨q, hq, e⟩ := Finset.mem_image.1 hT
        rw [← e]
        exact ⟨hbyte _, h.table_used q ((hL q).1 hq).1 ((hL q).1 hq).2⟩
      · obtain ⟨x', hx', e⟩ := Finset.mem_image.1 hE
        obtain ⟨hq, hi⟩ := (hSg x').1 hx'
        rw [← e]
        exact ⟨hbyte _, h.entry_used x'.1 x'.2 ((hL _).1 hq).1 ((hI _ _).1 hi).1
          ((hL _).1 hq).2 ((hI _ _).1 hi).2⟩
  have h0TE : (0 : Nat) ∉ T ∪ E := by
    intro hm
    rcases Finset.mem_union.1 hm with hT | hE
    · obtain ⟨q, hq, e⟩ := Finset.mem_image.1 hT
      exact ((hL q).1 hq).2 e
    · obtain ⟨x', hx', e⟩ := Finset.mem_image.1 hE
      exact ((hI _ _).1 ((hSg x').1 hx').2).2 e
  have hdisj : Disjoint T E := by
    rw [Finset.disjoint_left]
    intro a hT hE
    obtain ⟨q, hq, e⟩ := Finset.mem_image.1 hT
    obtain ⟨x', hx', e'⟩ := Finset.mem_image.1 hE
    obtain ⟨hr, hi⟩ := (hSg x').1 hx'
    exact h.table_entry q x'.1 x'.2 ((hL q).1 hq).1 ((hL _).1 hr).1 ((hI _ _).1 hi).1
      ((hL q).1 hq).2 ((hL _).1 hr).2 (by rw [e', e])
  have hTcard : T.card = L.card := by
    apply Finset.card_image_of_injOn
    intro q hq r hr e
    exact h.table_inj q r ((hL q).1 hq).1 ((hL r).1 hr).1 ((hL q).1 hq).2 ((hL r).1 hr).2 e
  have hEcard : E.card = Sg.card := by
    apply Finset.card_image_of_injOn
    intro x hx y hy e
    obtain ⟨hq, hi⟩ := (hSg x).1 hx
    obtain ⟨hr, hj⟩ := (hSg y).1 hy
    obtain ⟨e1, e2⟩ := h.entry_inj x.1 y.1 x.2 y.2 ((hL _).1 hq).1 ((hL _).1 hr).1
      ((hI _ _).1 hi).1 ((hI _ _).1 hj).1 ((hL _).1 hq).2 ((hL _).1 hr).2
      ((hI _ _).1 hi).2 e
    exact Sigma.ext e1 (heq_of_eq e2)
  have hSgcard : Sg.card = Finset.sum L fun q => (I q).card := Finset.card_sigma L I
  have hlive : live_entry_count s = Finset.sum L fun q => (I q).card := by
    unfold live_entry_count
    rw [list_sum_range, Finset.sum_filter]
    rfl
  have hused : used_count s = U.card := rfl
  have hptpt : ptpt_count s = L.card := rfl
  rw [hused, hptpt, hlive, hUeq, Finset.card_insert_of_not_mem h0TE,
    Finset.card_union_of_disjoint hdisj, hTcard, hEcard, hSgcard]

/-- The memory after `new_process`, byte by byte, in a state with page 0
allocated and free pages `f0 :: rest`. -/
theorem new_process_pointwise (s : State) (p : Nat) (n : Int) (hp : p < 64)
    (h0 : s.mem 0 ≠ 0) (f0 : Nat) (rest : List Nat) (hfs : free_pages s = f0 :: rest) :
    ∃ s', new_process (p : Int) n s = some s' ∧
      (∀ i, i = f0 ∨ i ∈ rest.take n.toNat → s'.mem i = 1) ∧
      (∀ i, i < 64 → i ≠ f0 → i ∉ rest.take n.toNat → s'.mem i = s.mem i) ∧
      s'.mem (64 + p) = f0 ∧
      (∀ q, q < 64 → q ≠ p → s'.mem (64 + q) = s.mem (64 + q)) ∧
      (∀ i, i < n.toNat → i < rest.length → s'.mem (f0 * 256 + i) = rest.getD i 0) ∧
      (∀ i, i < 256 → ¬(i < n.toNat ∧ i < rest.length) →
        s'.mem (f0 * 256 + i) = s.mem (f0 * 256 + i)) ∧
      (∀ a, 256 ≤ a → a / 256 ≠ f0 → s'.mem a = s.mem a) := by
  have hfm : f0 ∈ free_pages s := by rw [hfs]; exact List.mem_cons_self _ _
  have hf64 : f0 < 64 := ((mem_free_pages s f0).1 hfm).1
  have hf1 : 1 ≤ f0 := free_pages_pos s h0 f0 hfm
  have hrest : ∀ a, a ∈ rest → a < 64 := fun a ha =>
    ((mem_free_pages s a).1 (by rw [hfs]; exact List.mem_cons_of_mem _ ha)).1
  have hlen := free_pages_length_le s h0
  rw [hfs, List.length_cons] at hlen
  obtain ⟨s', e1, _, _, e4, e5, e6, e7⟩ := new_process_cons s p n hp h0 f0 rest hfs
  refine ⟨s', e1, ?_, ?_, e4, ?_, ?_, ?_, ?_⟩
  · rintro i (hi | hi)
    · rw [hi]
      exact e5
    · obtain ⟨j, hj1, hj2, hj3⟩ := mem_take_getD rest n.toNat i hi
      exact (e6 j i hj1 (by rw [getD_some rest j hj2, hj3])).2
  · intro i hi h1 h2
    exact e7 i (by omega) h1 h2 fun j _ _ => by omega
  · intro q hq hqp
    exact e7 (64 + q) (by omega) (by omega)
      (fun hm => by have := hrest _ (List.mem_of_mem_take hm); omega) fun j _ _ => by omega
  · intro i hi1 hi2
    exact (e6 i _ hi1 (getD_some rest i hi2)).1
  · intro i hi hni
    exact e7 (f0 * 256 + i) (by omega) (by omega)
      (fun hm => by have := hrest _ (List.mem_of_mem_take hm); omega)
      fun j hj1 hj2 e => hni ⟨by have : i = j := by omega
                                 rw [this]; exact hj1,
                               by have : i = j := by omega
                                  rw [this]; exact hj2⟩
  · intro a ha hne
    exact e7 a (by omega) (by omega)
      (fun hm => by have := hrest _ (List.mem_of_mem_take hm); omega)
      fun j _ hj e => hne (by rw [e]; omega)

theorem owned_of_mem_eq (s t : State) (e : t.mem = s.mem) (h : owned s) : owned t := by
  obtain ⟨m, a, o⟩ := s
  obtain ⟨m', a', o'⟩ := t
  have e' : m' = m := e
  subst e'
  exact ⟨h.fresh, h.owner, h.table_used, h.entry_used, h.table_inj, h.entry_inj,
    h.table_entry⟩

theorem getD_inj (l : List Nat) (hl : l.Nodup) (i j : Nat) (hi : i < l.length)
    (hj : j < l.length) (e : l.getD i 0 = l.getD j 0) : i = j := by
  rw [List.getD_eq_getElem l 0 hi, List.getD_eq_getElem l 0 hj] at e
  exact (hl.getElem_inj_iff).1 e

/-- `new_process` for a process without a page table, in a state where every
used page has one owner and free pages hold zeros, returns such a state, and
leaves the PTPT entries of the other processes as they were. -/
theorem new_process_owned (s : State) (p : Nat) (n : Int) (hp : p < 64)
    (hS : owned s) (hZ : free_zero s) (hnew : s.mem (64 + p) = 0) :
    ∃ s', new_process (p : Int) n s = some s' ∧ owned s' ∧ free_zero s' ∧
      ∀ q, q < 64 → q ≠ p → s'.mem (64 + q) = s.mem (64 + q) := by
  have h0 : s.mem 0 ≠ 0 := hS.fresh.1
  cases hfs : free_pages s with
  | nil =>
    refine ⟨_, new_process_nil _ _ s hfs, owned_of_mem_eq s _ rfl hS, hZ, fun _ _ _ => rfl⟩
  | cons f0 rest =>
    have hfree : ∀ x, x ∈ f0 :: rest → x < 64 ∧ s.mem x = 0 := fun x hx =>
      (mem_free_pages s x).1 (by rw [hfs]; exact hx)
    have hf0 := hfree f0 (List.mem_cons_self _ _)
    have hf1 : 1 ≤ f0 := free_pages_pos s h0 f0 (by rw [hfs]; exact List.mem_cons_self _ _)
    have hnd : (f0 :: rest).Nodup := by rw [← hfs]; exact free_pages_nodup s
    have hfr : f0 ∉ rest := (List.nodup_cons.1 hnd).1
    have hrnd : rest.Nodup := (List.nodup_cons.1 hnd).2
    have hlen := free_pages_length_le s h0
    rw [hfs, List.length_cons] at hlen
    have hL : ∀ x, x ∈ rest.take n.toNat → x < 64 ∧ s.mem x = 0 ∧ x ≠ f0 := fun x hx =>
      have hxr : x ∈ rest := List.mem_of_mem_take hx
      ⟨(hfree x (List.mem_cons_of_mem _ hxr)).1, (hfree x (List.mem_cons_of_mem _ hxr)).2,
        fun e => hfr (e ▸ hxr)⟩
    have hgetD : ∀ i, i < rest.length → rest.getD i 0 < 64 ∧ s.mem (rest.getD i 0) = 0 ∧
        rest.getD i 0 ≠ f0 ∧ 1 ≤ rest.getD i 0 := fun i hi =>
      have hm : rest.getD i 0 ∈ rest := getD_mem rest i hi
      ⟨(hfree _ (List.mem_cons_of_mem _ hm)).1, (hfree _ (List.mem_cons_of_mem _ hm)).2,
        fun e => hfr (e ▸ hm),
        free_pages_pos s h0 _ (by rw [hfs]; exact List.mem_cons_of_mem _ hm)⟩
    obtain ⟨s', e1, p1, p2, p3, p4, p5, p6, p7⟩ :=
      new_process_pointwise s p n hp h0 f0 rest hfs
    obtain ⟨s'', e1', hfresh'⟩ := new_process_fresh_inv s p n hp hS.fresh
    rw [e1, Option.some.injEq] at e1'
    rw [← e1'] at hfresh'
    -- used pages stay used, with the same byte
    have hstay : ∀ x, x < 64 → s.mem x ≠ 0 → s'.mem x = s.mem x := fun x hx hxu =>
      p2 x hx (fun e => hxu (e ▸ hf0.2)) fun hm => hxu (hL x hm).2.1
    -- a page used afterwards was used before or is newly allocated
    have hwas : ∀ x, x < 64 → s'.mem x ≠ 0 →
        s.mem x ≠ 0 ∨ x = f0 ∨ x ∈ rest.take n.toNat := fun x hx hxu => by
      by_cases h1 : x = f0
      · exact Or.inr (Or.inl h1)
      by_cases h2 : x ∈ rest.take n.toNat
      · exact Or.inr (Or.inr h2)
      · left
        rw [← p2 x hx h1 h2]
        exact hxu
    -- the processes that had a page table keep it, entries included
    have hold : ∀ q, q < 64 → q ≠ p → s.mem (64 + q) ≠ 0 → ∀ i, i < 256 →
        s'.mem (s.mem (64 + q) * 256 + i) = s.mem (s.mem (64 + q) * 256 + i) :=
      fun q hq _ hlive i hi => by
        have hu := hS.table_used q hq hlive
        have hne : s.mem (64 + q) ≠ f0 := fun e => hu (e ▸ hf0.2)
        exact p7 _ (by omega) (by omega)
    -- the entries of the new page table
    have hnewent : ∀ i, i < 256 → s'.mem (f0 * 256 + i) ≠ 0 →
        i < n.toNat ∧ i < rest.length ∧ s'.mem (f0 * 256 + i) = rest.getD i 0 :=
      fun i hi hne => by
        by_cases hc : i < n.toNat ∧ i < rest.length
        · exact ⟨hc.1, hc.2, p5 i hc.1 hc.2⟩
        · rw [p6 i hi hc, hZ f0 i hf1 hf0.1 hi hf0.2] at hne
          exact absurd rfl hne
    have hlive : ∀ q, q < 64 → s'.mem (64 + q) ≠ 0 → q ≠ p → s.mem (64 + q) ≠ 0 :=
      fun q hq h hqp => by rw [← p4 q hq hqp]; exact h
    have hLmem : ∀ i, i < n.toNat → i < rest.length → rest.getD i 0 ∈ rest.take n.toNat :=
      fun i hi1 hi2 => by
        rw [List.mem_iff_getElem?]
        exact ⟨i, by rw [List.getElem?_take, if_pos hi1]; exact getD_some rest i hi2⟩
    refine ⟨s', e1, ⟨hfresh', ?_, ?_, ?_, ?_, ?_, ?_⟩, ?_, p4⟩
    · -- owner
      intro x hx hx0 hxu
      rcases hwas x hx hxu with h1 | h1 | h1
      · obtain ⟨q, hq, hql, hcase⟩ := hS.owner x hx hx0 h1
        have hqp : q ≠ p := fun e => hql (e ▸ hnew)
        refine ⟨q, hq, by rw [p4 q hq hqp]; exact hql, ?_⟩
        rw [p4 q hq hqp]
        rcases hcase with e | ⟨i, hi, e⟩
        · exact Or.inl e
        · exact Or.inr ⟨i, hi, by rw [hold q hq hqp hql i hi]; exact e⟩
      · exact ⟨p, hp, by rw [p3]; omega, Or.inl (by rw [p3]; exact h1)⟩
      · obtain ⟨j, hj1, hj2, hj3⟩ := mem_take_getD rest n.toNat x h1
        exact ⟨p, hp, by rw [p3]; omega, Or.inr ⟨j, by omega, by rw [p3, p5 j hj1 hj2]; exact hj3⟩⟩
    · -- table_used
      intro q hq hql
      by_cases hqp : q = p
      · rw [hqp, p3, p1 f0 (Or.inl rfl)]
        exact Nat.one_ne_zero
      · have hl := hlive q hq hql hqp
        rw [p4 q hq hqp, hstay _ (hS.fresh.2.1 _) (hS.table_used q hq hl)]
        exact hS.table_used q hq hl
    · -- entry_used
      intro q i hq hi hql hne
      by_cases hqp : q = p
      · rw [hqp, p3] at hne ⊢
        obtain ⟨hi1, hi2, e⟩ := hnewent i hi hne
        rw [e, p1 _ (Or.inr (hLmem i hi1 hi2))]
        exact Nat.one_ne_zero
      · have hl := hlive q hq hql hqp
        rw [p4 q hq hqp, hold q hq hqp hl i hi] at hne ⊢
        rw [hstay _ (hS.fresh.2.1 _) (hS.entry_used q i hq hi hl hne)]
        exact hS.entry_used q i hq hi hl hne
    · -- table_inj
      intro q r hq hr hql hrl e
      by_cases hqp : q = p
      · by_cases hrp : r = p
        · rw [hqp, hrp]
        · exfalso
          rw [hqp, p3, p4 r hr hrp] at e
          exact hS.table_used r hr (hlive r hr hrl hrp) (e ▸ hf0.2)
      · by_cases hrp : r = p
        · exfalso
          rw [hrp, p3, p4 q hq hqp] at e
          exact hS.table_used q hq (hlive q hq hql hqp) (e.symm ▸ hf0.2)
        · rw [p4 q hq hqp, p4 r hr hrp] at e
          exact hS.table_inj q r hq hr (hlive q hq hql hqp) (hlive r hr hrl hrp) e
    · -- entry_inj
      intro q r i j hq hr hi hj hql hrl hne e
      by_cases hqp : q = p
      · rw [hqp, p3] at hne e
        obtain ⟨hi1, hi2, ei⟩ := hnewent i hi hne
        by_cases hrp : r = p
        · rw [hrp, p3] at e
          obtain ⟨hj1, hj2, ej⟩ := hnewent j hj (by rw [← e]; exact hne)
          rw [ei, ej] at e
          exact ⟨by rw [hqp, hrp], getD_inj rest hrnd i j hi2 hj2 e⟩
        · exfalso
          have hl := hlive r hr hrl hrp
          rw [p4 r hr hrp, hold r hr hrp hl j hj, ei] at e
          have hu := hS.entry_used r j hr hj hl (by rw [← e]; have := (hgetD i hi2).2.2.2; omega)
          rw [← e] at hu
          exact hu (hgetD i hi2).2.1
      · have hl := hlive q hq hql hqp
        rw [p4 q hq hqp, hold q hq hqp hl i hi] at hne e
        by_cases hrp : r = p
        · exfalso
          rw [hrp, p3] at e
          obtain ⟨hj1, hj2, ej⟩ := hnewent j hj (by rw [← e]; exact hne)
          rw [ej] at e
          have hu := hS.entry_used q i hq hi hl hne
          rw [e] at hu
          exact hu (hgetD j hj2).2.1
        · have hl' := hlive r hr hrl hrp
          rw [p4 r hr hrp, hold r hr hrp hl' j hj] at e
          exact hS.entry_inj q r i j hq hr hi hj hl hl' hne e
    · -- table_entry
      intro q r i hq hr hi hql hrl e
      by_cases hrp : r = p
      · rw [hrp, p3] at e
        have hne : s'.mem (f0 * 256 + i) ≠ 0 := by rw [e]; exact hql
        obtain ⟨hi1, hi2, ei⟩ := hnewent i hi hne
        rw [ei] at e
        by_cases hqp : q = p
        · rw [hqp, p3] at e
          exact (hgetD i hi2).2.2.1 e
        · rw [p4 q hq hqp] at e
          have hu := hS.table_used q hq (hlive q hq hql hqp)
          rw [← e] at hu
          exact hu (hgetD i hi2).2.1
      · have hl' := hlive r hr hrl hrp
        rw [p4 r hr hrp, hold r hr hrp hl' i hi] at e
        by_cases hqp : q = p
        · rw [hqp, p3] at e
          have hu := hS.entry_used r i hr hi hl' (by rw [e]; omega)
          rw [e] at hu
          exact hu hf0.2
        · rw [p4 q hq hqp] at e
          exact hS.table_entry q r i hq hr hi (hlive q hq hql hqp) hl' e
    · -- free_zero
      intro f i hf1' hf hi hfz
      have hfs0 : s.mem f = 0 := by
        by_contra hc
        rw [hstay f hf hc] at hfz
        exact hc hfz
      have hff : f ≠ f0 := fun e => by
        rw [e, p1 f0 (Or.inl rfl)] at hfz
        exact Nat.one_ne_zero hfz
      rw [p7 _ (by omega) (by omega)]
      exact hZ f i hf1' hf hi hfs0

/-- `kill_process` of a process with a page table, in a state where every used
page has one owner, returns such a state; the other processes keep their PTPT
entry, and memory outside page 0 is untouched. -/
theorem kill_process_owned (s : State) (p : Nat) (hp : p < 64) (hS : owned s)
    (hlive : s.mem (64 + p) ≠ 0) :
    ∃ s', kill_process (p : Int) s = some s' ∧ owned s' ∧
      s'.mem (64 + p) = 0 ∧
      (∀ q, q < 64 → q ≠ p → s'.mem (64 + q) = s.mem (64 + q)) ∧
      (∀ a, 256 ≤ a → s'.mem a = s.mem a) ∧
      (∀ x, x < 64 → x ≠ s.mem (64 + p) →
        (∀ j, j < 256 → s.mem (s.mem (64 + p) * 256 + j) ≠ x) → s'.mem x = s.mem x) := by
  obtain ⟨h0, hbyte, htail⟩ := hS.fresh
  have ht1 : 1 ≤ s.mem (64 + p) := by omega
  have ht := hbyte (64 + p)
  obtain ⟨s', k1, _, k3, k4, k5, k6⟩ := kill_process_spec s p hp ht1 ht
    (fun j _ => by have := hbyte (s.mem (64 + p) * 256 + j); omega)
  have hptpt : ∀ q, q < 64 → q ≠ p → s'.mem (64 + q) = s.mem (64 + q) := fun q hq hqp =>
    k6 _ (by omega) (by omega) fun j _ _ => by
      have := hbyte (s.mem (64 + p) * 256 + j)
      omega
  have hfar : ∀ a, 256 ≤ a → s'.mem a = s.mem a := fun a ha =>
    k6 a (by omega) (by omega) fun j _ _ => by
      have := hbyte (s.mem (64 + p) * 256 + j)
      omega
  have hkeep : ∀ x, x < 64 → x ≠ s.mem (64 + p) →
      (∀ j, j < 256 → s.mem (s.mem (64 + p) * 256 + j) ≠ x) → s'.mem x = s.mem x :=
    fun x hx h1 h2 => k6 x h1 (by omega) fun j hj _ => h2 j (by omega)
  -- a page used afterwards was used before and is not a page of `p`
  have hwas : ∀ x, x < 64 → s'.mem x ≠ 0 → s.mem x ≠ 0 ∧ x ≠ s.mem (64 + p) ∧
      ∀ j, j < 256 → s.mem (s.mem (64 + p) * 256 + j) ≠ 0 →
        s.mem (s.mem (64 + p) * 256 + j) ≠ x := fun x hx hxu => by
    have h1 : x ≠ s.mem (64 + p) := fun e => hxu (e ▸ k3)
    have h2 : ∀ j, j < 256 → s.mem (s.mem (64 + p) * 256 + j) ≠ 0 →
        s.mem (s.mem (64 + p) * 256 + j) ≠ x := fun j hj hne e => by
      have hj64 : j < 64 := by
        by_contra hge
        exact hne (htail _ (by nlinarith) (by omega))
      exact hxu (e ▸ k5 j hj64 hne)
    refine ⟨?_, h1, h2⟩
    have e : s'.mem x = s.mem x := k6 x h1 (by omega) fun j hj hne => h2 j (by omega) hne
    rw [← e]
    exact hxu
  have hl : ∀ q, q < 64 → s'.mem (64 + q) ≠ 0 → q ≠ p ∧ s.mem (64 + q) ≠ 0 := fun q hq h => by
    have hqp : q ≠ p := fun e => h (e ▸ k4)
    exact ⟨hqp, by rw [← hptpt q hq hqp]; exact h⟩
  have hent : ∀ q, q < 64 → s'.mem (64 + q) ≠ 0 → ∀ i,
      s'.mem (s'.mem (64 + q) * 256 + i) = s.mem (s.mem (64 + q) * 256 + i) :=
    fun q hq h i => by
      obtain ⟨hqp, hql⟩ := hl q hq h
      rw [hptpt q hq hqp]
      exact hfar _ (by omega)
  refine ⟨s', k1, ⟨⟨?_, ?_, ?_⟩, ?_, ?_, ?_, ?_, ?_, ?_⟩, k4, hptpt, hfar, hkeep⟩
  · rw [k6 0 (by omega) (by omega) fun j _ hne => hne]
    exact h0
  · intro a
    by_cases ha : 256 ≤ a
    · rw [hfar a ha]
      exact hbyte a
    · by_cases hz : s'.mem a = 0
      · omega
      · by_cases ha64 : a < 64
        · have := (hwas a ha64 hz).1
          have e : s'.mem a = s.mem a := k6 a (hwas a ha64 hz).2.1 (by omega)
            fun j hj hne => (hwas a ha64 hz).2.2 j (by omega) hne
          rw [e]
          exact hbyte a
        · by_cases hap : a = 64 + p
          · rw [hap, k4]
            omega
          · rw [k6 a (by omega) hap fun j _ _ => by
              have := hbyte (s.mem (64 + p) * 256 + j)
              omega]
            exact hbyte a
  · intro a ha1 ha2
    rw [hfar a ha1]
    exact htail a ha1 ha2
  · -- owner
    intro x hx hx0 hxu
    obtain ⟨hxs, hx1, hx2⟩ := hwas x hx hxu
    obtain ⟨q, hq, hql, hcase⟩ := hS.owner x hx hx0 hxs
    have hqp : q ≠ p := by
      intro e
      rw [e] at hcase
      rcases hcase with e' | ⟨i, hi, e'⟩
      · exact hx1 e'
      · exact hx2 i hi (by rw [e']; exact hx0) e'
    have hql' : s'.mem (64 + q) ≠ 0 := by rw [hptpt q hq hqp]; exact hql
    refine ⟨q, hq, hql', ?_⟩
    rcases hcase with e | ⟨i, hi, e⟩
    · exact Or.inl (by rw [hptpt q hq hqp]; exact e)
    · exact Or.inr ⟨i, hi, by rw [hent q hq hql' i]; exact e⟩
  · -- table_used
    intro q hq hql
    obtain ⟨hqp, hqs⟩ := hl q hq hql
    rw [hptpt q hq hqp]
    have hu := hS.table_used q hq hqs
    rw [hkeep _ (hbyte _) (fun e => hqp (hS.table_inj q p hq hp hqs hlive e))
      fun j hj e => hS.table_entry q p j hq hp hj hqs hlive e]
    exact hu
  · -- entry_used
    intro q i hq hi hql hne
    obtain ⟨hqp, hqs⟩ := hl q hq hql
    rw [hent q hq hql i] at hne ⊢
    have hu := hS.entry_used q i hq hi hqs hne
    rw [hkeep _ (hbyte _) (fun e => hS.table_entry p q i hp hq hi hlive hqs e)
      fun j hj e => hqp (hS.entry_inj p q j i hp hq hj hi hlive hqs (by rw [e]; exact hne) e).1.symm]
    exact hu
  · -- table_inj
    intro q r hq hr hql hrl e
    rw [hptpt q hq (hl q hq hql).1, hptpt r hr (hl r hr hrl).1] at e
    exact hS.table_inj q r hq hr (hl q hq hql).2 (hl r hr hrl).2 e
  · -- entry_inj
    intro q r i j hq hr hi hj hql hrl hne e
    rw [hent q hq hql i] at hne e
    rw [hent r hr hrl j] at e
    exact hS.entry_inj q r i j hq hr hi hj (hl q hq hql).2 (hl r hr hrl).2 hne e
  · -- table_entry
    intro q r i hq hr hi hql hrl e
    rw [hent r hr hrl i, hptpt q hq (hl q hq hql).1] at e
    exact hS.table_entry q r i hq hr hi (hl q hq hql).2 (hl r hr hrl).2 e

theorem initialize_mem_zero (a : Nat) (ha : a ≠ 0) : initialize_mem.mem a = 0 := by
  rw [initialize_mem_mem, write_other _ _ _ _ ha]

theorem owned_initialize_mem : owned initialize_mem := by
  refine ⟨fresh_inv_initialize_mem, ?_, ?_, ?_, ?_, ?_, ?_⟩
  · intro x _ hx0 hxu
    exact absurd (initialize_mem_zero x hx0) hxu
  · intro q _ h
    exact absurd (initialize_mem_zero (64 + q) (by omega)) h
  · intro q _ _ _ h
    exact absurd (initialize_mem_zero (64 + q) (by omega)) h
  · intro q _ _ _ h
    exact absurd (initialize_mem_zero (64 + q) (by omega)) h
  · intro q _ _ _ _ _ _ _ h
    exact absurd (initialize_mem_zero (64 + q) (by omega)) h
  · intro q _ _ _ _ _ h
    exact absurd (initialize_mem_zero (64 + q) (by omega)) h

theorem free_zero_initialize_mem : free_zero initialize_mem := by
  intro f i hf _ _ _
  exact initialize_mem_zero _ (by omega)

/-- A run of `new_process` calls on pairwise distinct process ids without a page
table, followed by further commands: the calls return, and the further commands
start in a state where every used page has one owner. -/
theorem run_news_owned : ∀ (news : List (Nat × Int)) (more : List Cmd) (s s' : State),
    owned s → free_zero s → (∀ c ∈ news, c.1 < 64 ∧ s.mem (64 + c.1) = 0) →
    (news.map Prod.fst).Nodup →
    run (news.map (fun c => Cmd.np c.1 c.2) ++ more) s = some s' →
    ∃ s1, owned s1 ∧ run more s1 = some s' ∧
      (all_address_mappings (news.map (fun c => Cmd.np c.1 c.2) ++ more) s = true →
        all_address_mappings more s1 = true)
  | [], more, s, s', hS, _, _, _, h => ⟨s, hS, h, fun hg => hg⟩
  | c :: cs, more, s, s', hS, hZ, hc, hnd, h => by
    obtain ⟨hc1, hc2⟩ := hc c (List.mem_cons_self _ _)
    obtain ⟨s1, e1, hS1, hZ1, hsame⟩ := new_process_owned s c.1 c.2 hc1 hS hZ hc2
    rw [List.map_cons, List.nodup_cons] at hnd
    have hstep : step (Cmd.np c.1 c.2) s = some s1 := e1
    rw [List.map_cons, List.cons_append] at h ⊢
    unfold run at h
    rw [hstep, Option.some_bind] at h
    obtain ⟨s2, hS2, h2, hg2⟩ := run_news_owned cs more s1 s' hS1 hZ1
      (fun d hd => by
        have hd1 := (hc d (List.mem_cons_of_mem _ hd)).1
        have hne : d.1 ≠ c.1 := fun e => hnd.1 (e ▸ List.mem_map_of_mem Prod.fst hd)
        exact ⟨hd1, by rw [hsame d.1 hd1 hne]; exact (hc d (List.mem_cons_of_mem _ hd)).2⟩)
      hnd.2 h
    refine ⟨s2, hS2, h2, fun hg => hg2 ?_⟩
    unfold all_address_mappings at hg
    rw [Bool.and_eq_true, hstep] at hg
    exact hg.2

/-- A run of `kill_process` calls, each on a process that has a page table at the
time, keeps the state one where every used page has one owner. -/
theorem run_kills_owned : ∀ (kills : List Nat) (s s' : State),
    owned s → (∀ p ∈ kills, p < 64) →
    all_address_mappings (kills.map Cmd.kp) s = true →
    run (kills.map Cmd.kp) s = some s' → owned s'
  | [], s, s', hS, _, _, h => by
    rw [List.map_nil, show run [] s = some s from rfl, Option.some.injEq] at h
    rw [← h]
    exact hS
  | p :: ks, s, s', hS, hk, hg, h => by
    rw [List.map_cons] at h hg
    unfold all_address_mappings at hg
    rw [Bool.and_eq_true] at hg
    have hlive : s.mem (64 + p) ≠ 0 := of_decide_eq_true hg.1
    obtain ⟨s1, e1, hS1, _⟩ :=
      kill_process_owned s p (hk p (List.mem_cons_self _ _)) hS hlive
    have hstep : step (Cmd.kp p) s = some s1 := e1
    unfold run at h
    rw [hstep, Option.some_bind] at h
    have hg2 := hg.2
    rw [hstep] at hg2
    exact run_kills_owned ks s1 s' hS1 (fun q hq => hk q (List.mem_cons_of_mem _ hq)) hg2 h

/-! ## Roles of pages -/

/-- `new_process`, for any process id in `[0,64)`, keeps the facts that
references point to used pages and that no byte outside page 0 names a
registered page table. -/
theorem new_process_roles (s : State) (p : Nat) (n : Int) (hp : p < 64)
    (hF : fresh_inv s) (hU : refs_used s) (hR : no_table_entry s) :
    ∃ s', new_process (p : Int) n s = some s' ∧ fresh_inv s' ∧ refs_used s' ∧
      no_table_entry s' := by
  have h0 : s.mem 0 ≠ 0 := hF.1
  have hbyte := hF.2.1
  cases hfs : free_pages s with
  | nil => exact ⟨_, new_process_nil _ _ s hfs, hF, hU, hR⟩
  | cons f0 rest =>
    have hfree : ∀ x, x ∈ f0 :: rest → x < 64 ∧ s.mem x = 0 := fun x hx =>
      (mem_free_pages s x).1 (by rw [hfs]; exact hx)
    have hf0 := hfree f0 (List.mem_cons_self _ _)
    have hf1 : 1 ≤ f0 := free_pages_pos s h0 f0 (by rw [hfs]; exact List.mem_cons_self _ _)
    have hnd : (f0 :: rest).Nodup := by rw [← hfs]; exact free_pages_nodup s
    have hfr : f0 ∉ rest := (List.nodup_cons.1 hnd).1
    have hL : ∀ x, x ∈ rest.take n.toNat → s.mem x = 0 := fun x hx =>
      (hfree x (List.mem_cons_of_mem _ (List.mem_of_mem_take hx))).2
    have hgetD : ∀ i, i < rest.length → s.mem (rest.getD i 0) = 0 ∧ rest.getD i 0 ≠ f0 :=
      fun i hi =>
        have hm : rest.getD i 0 ∈ rest := getD_mem rest i hi
        ⟨(hfree _ (List.mem_cons_of_mem _ hm)).2, fun e => hfr (e ▸ hm)⟩
    have hLmem : ∀ i, i < n.toNat → i < rest.length → rest.getD i 0 ∈ rest.take n.toNat :=
      fun i hi1 hi2 => by
        rw [List.mem_iff_getElem?]
        exact ⟨i, by rw [List.getElem?_take, if_pos hi1]; exact getD_some rest i hi2⟩
    obtain ⟨s', e1, p1, p2, p3, p4, p5, p6, p7⟩ :=
      new_process_pointwise s p n hp h0 f0 rest hfs
    obtain ⟨s'', e1', hF'⟩ := new_process_fresh_inv s p n hp hF
    rw [e1, Option.some.injEq] at e1'
    rw [← e1'] at hF'
    have hstay : ∀ x, s.mem x ≠ 0 → x < 64 → s'.mem x ≠ 0 := fun x hxu hx => by
      rw [p2 x hx (fun e => hxu (e ▸ hf0.2)) fun hm => hxu (hL x hm)]
      exact hxu
    -- a byte outside page 0 is a new entry or is as before
    have hbyte' : ∀ a, 256 ≤ a →
        (∃ i, i < rest.length ∧ s'.mem a = rest.getD i 0 ∧
          rest.getD i 0 ∈ rest.take n.toNat) ∨ s'.mem a = s.mem a := fun a ha => by
      by_cases hpage : a / 256 = f0
      · have ha' : a = f0 * 256 + a % 256 := by omega
        by_cases hc : a % 256 < n.toNat ∧ a % 256 < rest.length
        · left
          refine ⟨a % 256, hc.2, ?_, hLmem _ hc.1 hc.2⟩
          rw [ha', p5 _ hc.1 hc.2]
          congr 1
          omega
        · right
          rw [ha']
          exact p6 _ (by omega) hc
      · exact Or.inr (p7 a ha hpage)
    refine ⟨s', e1, hF', ⟨?_, ?_⟩, ?_⟩
    · intro q hq hql
      by_cases hqp : q = p
      · rw [hqp, p3, p1 f0 (Or.inl rfl)]
        exact Nat.one_ne_zero
      · rw [p4 q hq hqp] at hql ⊢
        exact hstay _ (hU.1 q hq hql) (hbyte _)
    · intro a ha hne
      rcases hbyte' a ha with ⟨i, hi, e, hm⟩ | e
      · rw [e, p1 _ (Or.inr hm)]
        exact Nat.one_ne_zero
      · rw [e] at hne ⊢
        exact hstay _ (hU.2 a ha hne) (hbyte _)
    · intro q a hq ha hql
      by_cases hqp : q = p
      · rw [hqp, p3]
        rcases hbyte' a ha with ⟨i, hi, e, _⟩ | e
        · rw [e]
          exact (hgetD i hi).2
        · rw [e]
          intro e'
          exact hU.2 a ha (by rw [e']; omega) (by rw [e']; exact hf0.2)
      · rw [p4 q hq hqp] at hql ⊢
        rcases hbyte' a ha with ⟨i, hi, e, _⟩ | e
        · rw [e]
          intro e'
          exact hU.1 q hq hql (by rw [← e']; exact (hgetD i hi).1)
        · rw [e]
          exact hR q a hq ha hql

/-- The loop of `kill_process`, for any page table below 64 (page 0 included)
in a state whose bytes are all below 64: it returns, it writes only zeros, and
only to the free map. -/
theorem kill_process_loop_zeros (pt : Nat) (hpt : pt < 64) :
    ∀ (k i : Nat) (s : State), i + k ≤ 256 → (∀ a, s.mem a < 64) →
    ∃ s', kill_process_loop (pt : Int) k i s = some s' ∧
      (∀ a, s'.mem a = 0 ∨ s'.mem a = s.mem a) ∧
      (∀ a, 64 ≤ a → s'.mem a = s.mem a) := by
  intro k
  induction k with
  | zero =>
    intro i s _ _
    exact ⟨s, rfl, fun _ => Or.inr rfl, fun _ _ => rfl⟩
  | succ k ih =>
    intro i s hik hb
    have hei := hb (pt * 256 + i)
    by_cases he : s.mem (pt * 256 + i) = 0
    · obtain ⟨s', e1, e2, e3⟩ := ih (i + 1) s (by omega) hb
      refine ⟨s', ?_, e2, e3⟩
      unfold kill_process_loop
      rw [get_address_nat pt i (by omega), load_nat s _ (by omega), Option.some_bind, he]
      exact e1
    · let s1 : State := { s with mem := write s.mem (s.mem (pt * 256 + i)) 0 }
      have hs1 : s1.mem = write s.mem (s.mem (pt * 256 + i)) 0 := rfl
      have hb1 : ∀ a, s1.mem a < 64 := fun a => by
        rw [hs1]
        by_cases ha : a = s.mem (pt * 256 + i)
        · rw [ha, write_same]
          omega
        · rw [write_other _ _ _ _ ha]
          exact hb a
      obtain ⟨s', e1, e2, e3⟩ := ih (i + 1) s1 (by omega) hb1
      refine ⟨s', ?_, ?_, ?_⟩
      · unfold kill_process_loop
        rw [get_address_nat pt i (by omega), load_nat s _ (by omega), Option.some_bind,
          if_pos (by omega), store_nat s _ 0 (by omega), Option.some_bind]
        exact e1
      · intro a
        rcases e2 a with h | h
        · exact Or.inl h
        · rw [h, hs1]
          by_cases ha : a = s.mem (pt * 256 + i)
          · left
            rw [ha]
            exact write_same _ _ _
          · right
            exact write_other _ _ _ _ ha
      · intro a ha
        rw [e3 a ha, hs1]
        exact write_other _ _ _ _ (by omega)

/-- `kill_process`, for any process id in `[0,64)` in a state whose bytes are all
below 64, returns; it writes only zeros, and only to page 0. -/
theorem kill_process_zeros (s : State) (p : Nat) (hp : p < 64) (hb : ∀ a, s.mem a < 64) :
    ∃ s', kill_process (p : Int) s = some s' ∧
      (∀ a, s'.mem a = 0 ∨ s'.mem a = s.mem a) ∧
      (∀ a, 256 ≤ a → s'.mem a = s.mem a) := by
  have ht := hb (64 + p)
  obtain ⟨s1, e1, e2, e3⟩ := kill_process_loop_zeros (s.mem (64 + p)) ht 64 0 s (by omega) hb
  let s2 : State := { s1 with mem := write s1.mem (s.mem (64 + p)) 0 }
  let s3 : State := { s2 with mem := write s2.mem (64 + p) 0 }
  have hs3 : s3.mem = write (write s1.mem (s.mem (64 + p)) 0) (64 + p) 0 := rfl
  refine ⟨s3, ?_, ?_, ?_⟩
  · unfold kill_process
    rw [get_page_table_nat s p hp, Option.some_bind]
    unfold PAGE_COUNT
    rw [e1, Option.some_bind, store_nat s1 _ 0 (by omega), Option.some_bind, ptp_nat,
      store_nat _ _ 0 (by omega)]
    rfl
  · intro a
    rw [hs3]
    by_cases h1 : a = 64 + p
    · left
      rw [h1]
      exact write_same _ _ _
    · rw [write_other _ _ _ _ h1]
      by_cases h2 : a = s.mem (64 + p)
      · left
        rw [h2]
        exact write_same _ _ _
      · rw [write_other _ _ _ _ h2]
        exact e2 a
  · intro a ha
    rw [hs3, write_other _ _ _ _ (by omega), write_other _ _ _ _ (by omega)]
    exact e3 a (by omega)

theorem kill_process_roles (s : State) (p : Nat) (hp : p < 64) (hb : ∀ a, s.mem a < 64)
    (hR : no_table_entry s) :
    ∃ s', kill_process (p : Int) s = some s' ∧ (∀ a, s'.mem a < 64) ∧ no_table_entry s' := by
  obtain ⟨s', e1, e2, e3⟩ := kill_process_zeros s p hp hb
  refine ⟨s', e1, ?_, ?_⟩
  · intro a
    rcases e2 a with h | h
    · omega
    · rw [h]
      exact hb a
  · intro q a hq ha hql
    rcases e2 (64 + q) with h | h
    · exact absurd h hql
    · rw [h, e3 a ha]
      rw [h] at hql
      exact hR q a hq ha hql

theorem run_news_roles : ∀ (news : List (Nat × Int)) (more : List Cmd) (s s' : State),
    fresh_inv s → refs_used s → no_table_entry s → (∀ c ∈ news, c.1 < 64) →
    run (news.map (fun c => Cmd.np c.1 c.2) ++ more) s = some s' →
    ∃ s1, fresh_inv s1 ∧ no_table_entry s1 ∧ run more s1 = some s'
  | [], _, s, _, hF, _, hR, _, h => ⟨s, hF, hR, h⟩
  | c :: cs, more, s, s', hF, hU, hR, hc, h => by
    obtain ⟨s1, e1, hF1, hU1, hR1⟩ :=
      new_process_roles s c.1 c.2 (hc c (List.mem_cons_self _ _)) hF hU hR
    have hstep : step (Cmd.np c.1 c.2) s = some s1 := e1
    rw [List.map_cons, List.cons_append] at h
    unfold run at h
    rw [hstep, Option.some_bind] at h
    exact run_news_roles cs more s1 s' hF1 hU1 hR1
      (fun d hd => hc d (List.mem_cons_of_mem _ hd)) h

theorem run_kills_roles : ∀ (kills : List Nat) (s s' : State),
    (∀ a, s.mem a < 64) → no_table_entry s → (∀ p ∈ kills, p < 64) →
    run (kills.map Cmd.kp) s = some s' → no_table_entry s'
  | [], s, s', _, hR, _, h => by
    rw [List.map_nil, show run [] s = some s from rfl, Option.some.injEq] at h
    rw [← h]
    exact hR
  | p :: ks, s, s', hb, hR, hk, h => by
    obtain ⟨s1, e1, hb1, hR1⟩ := kill_process_roles s p (hk p (List.mem_cons_self _ _)) hb hR
    have hstep : step (Cmd.kp p) s = some s1 := e1
    rw [List.map_cons] at h
    unfold run at h
    rw [hstep, Option.some_bind] at h
    exact run_kills_roles ks s1 s' hb1 hR1 (fun q hq => hk q (List.mem_cons_of_mem _ hq)) h

theorem refs_used_initialize_mem : refs_used initialize_mem :=
  ⟨fun q _ h => absurd (initialize_mem_zero (64 + q) (by omega)) h,
    fun a ha h => absurd (initialize_mem_zero a (by omega)) h⟩

theorem no_table_entry_initialize_mem : no_table_entry initialize_mem :=
  fun q _ _ _ h => absurd (initialize_mem_zero (64 + q) (by omega)) h

/-! ## Isolation of teardown -/

theorem run_new_eq_run : ∀ (news : List (Nat × Int)) (s : State),
    run_new news s = run (news.map (fun c => Cmd.np c.1 c.2)) s
  | [], _ => rfl
  | c :: cs, s => by
    show (new_process (c.1 : Int) c.2 s).bind (run_new cs) =
      (new_process (c.1 : Int) c.2 s).bind (run (cs.map (fun c => Cmd.np c.1 c.2)))
    congr 1
    funext s1
    exact run_new_eq_run cs s1

/-- After `new_process` calls on pairwise distinct process ids in `[0,64)` on
freshly initialised memory, `kill_process(p)` of a process `p` that has a page
table leaves every other process `q` that has one untouched: its PTPT entry,
the 256 bytes of its page-table page, and the free-map bytes of that page and of
the pages mapped in it. -/
theorem kill_process_isolated (news : List (Nat × Int)) (p q : Nat)
    (hn : ∀ c ∈ news, c.1 < 64) (hnd : (news.map Prod.fst).Nodup)
    (hp : p ∈ news.map Prod.fst) (hq : q ∈ news.map Prod.fst) (hpq : p ≠ q) :
    ∃ s, run_new news initialize_mem = some s ∧
      (s.mem (64 + p) ≠ 0 → s.mem (64 + q) ≠ 0 →
        ∃ s', kill_process (p : Int) s = some s' ∧
          s'.mem (64 + q) = s.mem (64 + q) ∧
          (∀ i, i < 256 → s'.mem (s.mem (64 + q) * 256 + i) = s.mem (s.mem (64 + q) * 256 + i)) ∧
          s'.mem (s.mem (64 + q)) = s.mem (s.mem (64 + q)) ∧
          (∀ i, i < 256 → s.mem (s.mem (64 + q) * 256 + i) ≠ 0 →
            s'.mem (s.mem (s.mem (64 + q) * 256 + i)) =
              s.mem (s.mem (s.mem (64 + q) * 256 + i)))) := by
  have hlt : ∀ x, x ∈ news.map Prod.fst → x < 64 := fun x hx => by
    obtain ⟨c, hc1, hc2⟩ := List.mem_map.1 hx
    rw [← hc2]
    exact hn c hc1
  obtain ⟨s, e1, _⟩ := run_new_fresh_inv news initialize_mem hn fresh_inv_initialize_mem
  have hrun : run (news.map (fun c => Cmd.np c.1 c.2) ++ []) initialize_mem = some s := by
    rw [List.append_nil, ← run_new_eq_run]
    exact e1
  obtain ⟨s1, hS1, h1, _⟩ := run_news_owned news [] initialize_mem s owned_initialize_mem
    free_zero_initialize_mem (fun c hc => ⟨hn c hc, initialize_mem_zero _ (by omega)⟩) hnd hrun
  rw [show run [] s1 = some s1 from rfl, Option.some.injEq] at h1
  rw [h1] at hS1
  refine ⟨s, e1, fun hpl hql => ?_⟩
  have hp64 := hlt p hp
  have hq64 := hlt q hq
  have hbyte := hS1.fresh.2.1
  obtain ⟨s', k1, _, _, hptpt, hfar, hkeep⟩ := kill_process_owned s p hp64 hS1 hpl
  refine ⟨s', k1, hptpt q hq64 (Ne.symm hpq), fun i _ => hfar _ (by omega), ?_, ?_⟩
  · exact hkeep _ (hbyte _) (fun e => hpq (hS1.table_inj q p hq64 hp64 hql hpl e).symm)
      fun j hj e => hS1.table_entry q p j hq64 hp64 hj hql hpl e
  · intro i hi hne
    exact hkeep _ (hbyte _) (fun e => hS1.table_entry p q i hp64 hq64 hi hpl hql e)
      fun j hj e => hpq (hS1.entry_inj p q j i hp64 hq64 hj hi hpl hql
        (by rw [e]; exact hne) e).1

set_option maxRecDepth 1000000 in
theorem scenario_np_np_kp :
    (run_new [(0, 62), (1, 0)] initialize_mem).map
      (fun s => (s.mem (64 + 0), s.mem (64 + 1), s.mem (s.mem (64 + 0)))) = some (1, 0, 1) ∧
    ((run_new [(0, 62), (1, 0)] initialize_mem).bind (kill_process 1)).map
      (fun s => (s.mem (64 + 0), s.mem 1)) = some (1, 0) := by
  decide

/-! ## Claims about conservation, roles and isolation -/

/-- C12, as stated, fails: after `np 0 1`, `kp 0`, `np 1 0` two pages are used,
one PTPT entry is nonzero and its page table (page 1 again, not cleared since
it was the page table of process 0) holds one nonzero entry, and `2 ≠ 1 + 1 + 1`;
after `np 0 0`, `np 0 0` three pages are used, one PTPT entry is nonzero and its
page table is empty, and `3 ≠ 1 + 0 + 1`. -/
theorem conservation_counterexample :
    (run [Cmd.np 0 1, Cmd.kp 0, Cmd.np 1 0] initialize_mem).map
      (fun s => (used_count s, ptpt_count s, live_entry_count s)) = some (2, 1, 1) ∧
    (run [Cmd.np 0 0, Cmd.np 0 0] initialize_mem).map
      (fun s => (used_count s, ptpt_count s, live_entry_count s)) = some (3, 1, 0) := by
  decide

/-- C12, amended: in every state reached from `initialize_mem` by `new_process`
calls on pairwise distinct process ids in `[0,64)` followed by `kill_process`
calls with process ids in `[0,64)`, each on a process whose PTPT entry is
nonzero at the time, the number of nonzero free-map bytes `mem[0..63]` equals
the number of nonzero PTPT entries plus the total number of nonzero entries in
the page tables those entries point to, plus 1. -/
theorem conservation (news : List (Nat × Int)) (kills : List Nat) (s : State)
    (hn : ∀ c ∈ news, c.1 < 64) (hnd : (news.map Prod.fst).Nodup)
    (hk : ∀ p ∈ kills, p < 64)
    (hg : all_address_mappings
      (news.map (fun c => Cmd.np c.1 c.2) ++ kills.map Cmd.kp) initialize_mem = true)
    (hs : run (news.map (fun c => Cmd.np c.1 c.2) ++ kills.map Cmd.kp) initialize_mem =
      some s) :
    used_count s = ptpt_count s + live_entry_count s + 1 := by
  obtain ⟨s1, hS1, h1, hg1⟩ := run_news_owned news (kills.map Cmd.kp) initialize_mem s
    owned_initialize_mem free_zero_initialize_mem
    (fun c hc => ⟨hn c hc, initialize_mem_zero _ (by omega)⟩) hnd hs
  exact owned_conservation s (run_kills_owned kills s1 s hS1 hk (hg1 hg) h1)

/-- Witness of the amended C12: `np 0 2`, `np 1 1`, then `kp 0`. -/
theorem conservation_witness :
    ((∀ c ∈ [((0 : Nat), (2 : Int)), (1, 1)], c.1 < 64) ∧
      ([((0 : Nat), (2 : Int)), (1, 1)].map Prod.fst).Nodup ∧
      (∀ p ∈ [0], p < 64) ∧
      all_address_mappings
        ([((0 : Nat), (2 : Int)), (1, 1)].map (fun c => Cmd.np c.1 c.2) ++ [0].map Cmd.kp)
        initialize_mem = true) ∧
    ∃ s, run ([((0 : Nat), (2 : Int)), (1, 1)].map (fun c => Cmd.np c.1 c.2) ++ [0].map Cmd.kp)
        initialize_mem = some s ∧
      used_count s = ptpt_count s + live_entry_count s + 1 :=
  have hsome : (run ([((0 : Nat), (2 : Int)), (1, 1)].map (fun c => Cmd.np c.1 c.2) ++
      [0].map Cmd.kp) initialize_mem).isSome = true := by decide
  ⟨⟨by decide, by decide, by decide, by decide⟩, Option.get _ hsome,
    (Option.some_get hsome).symm,
    conservation [((0 : Nat), (2 : Int)), (1, 1)] [0] _ (by decide) (by decide) (by decide)
      (by decide) (Option.some_get hsome).symm⟩

/-- C15, as stated, fails: after `np 0 1`, `kp 0`, `np 1 0`, `np 2 0` (each
`kill_process` on a process that has a page table), page 2 is registered in the
PTPT as the page table of process 2 and is also entry 0 of the page table of
process 1 (page 1), left there from the time page 1 was the page table of
process 0. -/
theorem role_consistency_counterexample :
    (run [Cmd.np 0 1, Cmd.kp 0, Cmd.np 1 0, Cmd.np 2 0] initialize_mem).map
      (fun s => (s.mem (64 + 2), s.mem (64 + 1), s.mem (s.mem (64 + 1) * 256 + 0))) =
      some (2, 1, 2) := by
  decide

/-- C15, amended: in every state reached from `initialize_mem` by `new_process`
calls followed by `kill_process` calls (no `new_process` after a
`kill_process`), with process ids in `[0,64)`, no page registered in the PTPT as
the page table of a process `q` is an entry in the page table of another process
`r`. -/
theorem role_consistency (news : List (Nat × Int)) (kills : List Nat) (s : State)
    (hn : ∀ c ∈ news, c.1 < 64) (hk : ∀ p ∈ kills, p < 64)
    (hs : run (news.map (fun c => Cmd.np c.1 c.2) ++ kills.map Cmd.kp) initialize_mem =
      some s) :
    ∀ q r i, q < 64 → r < 64 → q ≠ r → s.mem (64 + q) ≠ 0 → s.mem (64 + r) ≠ 0 → i < 256 →
      s.mem (s.mem (64 + r) * 256 + i) ≠ s.mem (64 + q) := by
  obtain ⟨s1, hF1, hR1, h1⟩ := run_news_roles news (kills.map Cmd.kp) initialize_mem s
    fresh_inv_initialize_mem refs_used_initialize_mem no_table_entry_initialize_mem hn hs
  have hR := run_kills_roles kills s1 s hF1.2.1 hR1 hk h1
  intro q r i hq _ _ hql hrl _
  exact hR q _ hq (by omega) hql

/-- Witness of the amended C15: `np 0 1`, `np 1 2`, `np 2 1`, then `kp 1`. At the
end processes 0 and 2 are registered, with page tables 1 and 6, and entry 0 of
each table is nonzero (pages 2 and 7). -/
theorem role_consistency_witness :
    ((∀ c ∈ [((0 : Nat), (1 : Int)), (1, 2), (2, 1)], c.1 < 64) ∧ (∀ p ∈ [1], p < 64)) ∧
    (run ([((0 : Nat), (1 : Int)), (1, 2), (2, 1)].map (fun c => Cmd.np c.1 c.2) ++
        [1].map Cmd.kp) initialize_mem).map
      (fun s => (s.mem (64 + 0), s.mem (64 + 1), s.mem (64 + 2),
        s.mem (s.mem (64 + 0) * 256 + 0), s.mem (s.mem (64 + 2) * 256 + 0))) =
      some (1, 0, 6, 2, 7) ∧
    ∃ s, run ([((0 : Nat), (1 : Int)), (1, 2), (2, 1)].map (fun c => Cmd.np c.1 c.2) ++
        [1].map Cmd.kp) initialize_mem = some s ∧
      ∀ q r i, q < 64 → r < 64 → q ≠ r → s.mem (64 + q) ≠ 0 → s.mem (64 + r) ≠ 0 →
        i < 256 → s.mem (s.mem (64 + r) * 256 + i) ≠ s.mem (64 + q) :=
  have hsome : (run ([((0 : Nat), (1 : Int)), (1, 2), (2, 1)].map (fun c => Cmd.np c.1 c.2) ++
      [1].map Cmd.kp) initialize_mem).isSome = true := by decide
  ⟨⟨by decide, by decide⟩, by decide, Option.get _ hsome, (Option.some_get hsome).symm,
    role_consistency [((0 : Nat), (1 : Int)), (1, 2), (2, 1)] [1] _ (by decide) (by decide)
      (Option.some_get hsome).symm⟩

/-- C17, evaluated at its failing input: after `new_process(0, 62)` and
`new_process(1, 0)` on freshly initialised memory, process 0 has page table 1
(`mem[64] == 1`, `mem[1] == 1`) and process 1, for which no page was left, has
none (`mem[65] == 0`); `kill_process(1)` then clears `mem[1]`, the free-map byte
of the page table of process 0, while `mem[64]` still is 1. -/
theorem kill_process_unassigned_frees_other_table :
    (run_new [(0, 62), (1, 0)] initialize_mem).map
      (fun s => (s.mem (64 + 0), s.mem (64 + 1), s.mem (s.mem (64 + 0)))) = some (1, 0, 1) ∧
    ((run_new [(0, 62), (1, 0)] initialize_mem).bind (kill_process 1)).map
      (fun s => (s.mem (64 + 0), s.mem 1)) = some (1, 0) :=
  scenario_np_np_kp

end Ptsim
